import Mathlib

/-!
Verification of the iMessage/Codex bridge against its natural-language
specification.

The TypeScript sources are shallowly embedded: JavaScript strings are modeled
as Lean `String` (or `List Char` where index arithmetic matters), SQLite
tables as Lean lists of row structures, and the event-driven handlers as pure
functions from their inputs (current store state, event payload) to their
outputs (updated state plus the externally visible action).  Fallible
operations return `Option` or `Except`.
-/

set_option maxRecDepth 40000

deriving instance DecidableEq for Except

namespace Bridge

/-! ## Basic JavaScript string helpers

JavaScript `trim`, `\s` and `toLowerCase` as used by the bridge.  The bridge
only ever manipulates ASCII whitespace, so the whitespace class is the six
ASCII whitespace characters matched by the JavaScript `\s` class.
-/

/-- Whitespace as matched by JavaScript `\s` / removed by `trim` (ASCII part). -/
def isWsChar (c : Char) : Bool :=
  c == ' ' || c == '\t' || c == '\n' || c == '\r' || c == '\x0b' || c == '\x0c'

/-- Leading-whitespace removal on character lists. -/
def trimLeftChars (cs : List Char) : List Char :=
  cs.dropWhile isWsChar

/-- Trailing-whitespace removal on character lists. -/
def trimRightChars (cs : List Char) : List Char :=
  (cs.reverse.dropWhile isWsChar).reverse

/-- JavaScript `String.prototype.trim` on character lists. -/
def trimChars (cs : List Char) : List Char :=
  trimRightChars (trimLeftChars cs)

/-- JavaScript `String.prototype.trim` on strings. -/
def jsTrim (s : String) : String :=
  String.mk (trimChars s.data)

/-- Contiguous-sublist test on character lists. -/
def listIsInfix (needle : List Char) : List Char → Bool
  | [] => needle.isEmpty
  | c :: rest => needle.isPrefixOf (c :: rest) || listIsInfix needle rest

/-- JavaScript `String.prototype.includes` (substring containment). -/
def strIncludes (hay needle : String) : Bool :=
  listIsInfix needle.data hay.data

/-- JavaScript `String.prototype.toLowerCase` (ASCII case folding). -/
def strToLower (s : String) : String :=
  String.mk (s.data.map Char.toLower)

/-- JavaScript `String.prototype.startsWith`. -/
def strStartsWith (s pre : String) : Bool :=
  pre.data.isPrefixOf s.data

/-! ## JSON values and `JSON.parse`

`JSON.parse` is embedded as a recursive-descent parser over character lists.
Numeric literals are kept as their lexemes (the bridge never computes with
JSON numbers).  Duplicate object keys are resolved as in JavaScript: the
first occurrence keeps its position, the last occurrence keeps its value, so
parsed objects always carry pairwise-distinct keys.
-/

inductive Json where
  | null : Json
  | bool : Bool → Json
  | num : String → Json
  | str : String → Json
  | arr : List Json → Json
  | obj : List (String × Json) → Json

/-- JavaScript object-property assignment: overwrite in place or append. -/
def insertKV (l : List (String × Json)) (k : String) (v : Json) :
    List (String × Json) :=
  if l.any (fun p => p.1 == k) then
    l.map (fun p => if p.1 == k then (k, v) else p)
  else
    l ++ [(k, v)]

/-- First binding of a key in a parsed object (keys are distinct by parsing). -/
def lookupKey (l : List (String × Json)) (k : String) : Option Json :=
  (l.find? (fun p => p.1 == k)).map Prod.snd

/-- JSON structural whitespace. -/
def isJsonWs (c : Char) : Bool :=
  c == ' ' || c == '\t' || c == '\n' || c == '\r'

def skipJsonWs (cs : List Char) : List Char :=
  cs.dropWhile isJsonWs

def isHexDigit (c : Char) : Bool :=
  (('0' ≤ c) && (c ≤ '9')) || (('a' ≤ c) && (c ≤ 'f')) || (('A' ≤ c) && (c ≤ 'F'))

def hexVal (c : Char) : Nat :=
  if ('0' ≤ c) && (c ≤ '9') then c.toNat - '0'.toNat
  else if ('a' ≤ c) && (c ≤ 'f') then c.toNat - 'a'.toNat + 10
  else if ('A' ≤ c) && (c ≤ 'F') then c.toNat - 'A'.toNat + 10
  else 0

/-- Parse the body of a JSON string literal (after the opening quote). -/
def parseJsonString : List Char → Option (String × List Char)
  | [] => none
  | '"' :: rest => some ("", rest)
  | '\\' :: e :: rest =>
    match e with
    | '"' => (parseJsonString rest).map (fun p => (String.mk ('"' :: p.1.data), p.2))
    | '\\' => (parseJsonString rest).map (fun p => (String.mk ('\\' :: p.1.data), p.2))
    | '/' => (parseJsonString rest).map (fun p => (String.mk ('/' :: p.1.data), p.2))
    | 'b' => (parseJsonString rest).map (fun p => (String.mk ('\x08' :: p.1.data), p.2))
    | 'f' => (parseJsonString rest).map (fun p => (String.mk ('\x0c' :: p.1.data), p.2))
    | 'n' => (parseJsonString rest).map (fun p => (String.mk ('\n' :: p.1.data), p.2))
    | 'r' => (parseJsonString rest).map (fun p => (String.mk ('\r' :: p.1.data), p.2))
    | 't' => (parseJsonString rest).map (fun p => (String.mk ('\t' :: p.1.data), p.2))
    | 'u' =>
      match rest with
      | h1 :: h2 :: h3 :: h4 :: rest2 =>
        if isHexDigit h1 && isHexDigit h2 && isHexDigit h3 && isHexDigit h4 then
          let code := ((hexVal h1 * 16 + hexVal h2) * 16 + hexVal h3) * 16 + hexVal h4
          let c := Char.ofNat code
          (parseJsonString rest2).map (fun p => (String.mk (c :: p.1.data), p.2))
        else none
      | _ => none
    | _ => none
  | c :: rest =>
    if c.toNat < 0x20 then none
    else (parseJsonString rest).map (fun p => (String.mk (c :: p.1.data), p.2))

/-- Parse a JSON number lexeme: `-?(0|[1-9][0-9]*)(\.[0-9]+)?([eE][+-]?[0-9]+)?`. -/
def parseJsonNumber (cs : List Char) : Option (String × List Char) :=
  let isDigit : Char → Bool := fun c => ('0' ≤ c) && (c ≤ '9')
  let (sign, cs1) :=
    match cs with
    | '-' :: rest => (['-'], rest)
    | _ => (([] : List Char), cs)
  match cs1 with
  | [] => none
  | c :: _ =>
    if ¬ isDigit c then none
    else
      let intPart :=
        if c = '0' then ['0'] else cs1.takeWhile isDigit
      let cs2 := cs1.drop intPart.length
      let (fracPart, cs3) :=
        match cs2 with
        | '.' :: rest =>
          let ds := rest.takeWhile isDigit
          if ds = [] then ([('?' : Char)], rest) else ('.' :: ds, rest.drop ds.length)
        | _ => (([] : List Char), cs2)
      if fracPart = [('?' : Char)] then none
      else
        let (expPart, cs4) :=
          match cs3 with
          | e :: rest =>
            if e = 'e' ∨ e = 'E' then
              let (sgn, rest2) :=
                match rest with
                | s :: r2 => if s = '+' ∨ s = '-' then ([s], r2) else (([] : List Char), rest)
                | [] => (([] : List Char), rest)
              let ds := rest2.takeWhile isDigit
              if ds = [] then ([('?' : Char)], rest2) else (e :: (sgn ++ ds), rest2.drop ds.length)
            else (([] : List Char), cs3)
          | [] => (([] : List Char), cs3)
        if expPart = [('?' : Char)] then none
        else some (String.mk (sign ++ intPart ++ fracPart ++ expPart), cs4)

mutual

/-- Recursive-descent JSON value parser, with fuel for termination.  The fuel
is always instantiated with the input length plus one, which suffices because
every recursive call consumes at least one character first. -/
def parseJsonValue (fuel : Nat) (cs : List Char) : Option (Json × List Char) :=
  match fuel with
  | 0 => none
  | fuel + 1 =>
    match skipJsonWs cs with
    | [] => none
    | c :: rest =>
      if c = 'n' then
        match rest with
        | 'u' :: 'l' :: 'l' :: rest2 => some (Json.null, rest2)
        | _ => none
      else if c = 't' then
        match rest with
        | 'r' :: 'u' :: 'e' :: rest2 => some (Json.bool true, rest2)
        | _ => none
      else if c = 'f' then
        match rest with
        | 'a' :: 'l' :: 's' :: 'e' :: rest2 => some (Json.bool false, rest2)
        | _ => none
      else if c = '"' then
        (parseJsonString rest).map (fun p => (Json.str p.1, p.2))
      else if c = '[' then
        match skipJsonWs rest with
        | ']' :: rest2 => some (Json.arr [], rest2)
        | _ => parseJsonElements fuel rest []
      else if c = '\x7b' then
        match skipJsonWs rest with
        | '\x7d' :: rest2 => some (Json.obj [], rest2)
        | _ => parseJsonMembers fuel rest []
      else
        (parseJsonNumber (c :: rest)).map (fun p => (Json.num p.1, p.2))


/-- Parse the elements of a nonempty JSON array (after the opening bracket). -/
def parseJsonElements (fuel : Nat) (cs : List Char) (acc : List Json) :
    Option (Json × List Char) :=
  match fuel with
  | 0 => none
  | fuel + 1 =>
    match parseJsonValue fuel cs with
    | none => none
    | some (v, rest) =>
      match skipJsonWs rest with
      | ',' :: rest2 => parseJsonElements fuel rest2 (acc ++ [v])
      | ']' :: rest2 => some (Json.arr (acc ++ [v]), rest2)
      | _ => none


/-- Parse the members of a nonempty JSON object (after the opening brace). -/
def parseJsonMembers (fuel : Nat) (cs : List Char) (acc : List (String × Json)) :
    Option (Json × List Char) :=
  match fuel with
  | 0 => none
  | fuel + 1 =>
    match skipJsonWs cs with
    | '"' :: rest =>
      match parseJsonString rest with
      | none => none
      | some (k, rest2) =>
        match skipJsonWs rest2 with
        | ':' :: rest3 =>
          match parseJsonValue fuel rest3 with
          | none => none
          | some (v, rest4) =>
            match skipJsonWs rest4 with
            | ',' :: rest5 => parseJsonMembers fuel rest5 (insertKV acc k v)
            | '\x7d' :: rest5 => some (Json.obj (insertKV acc k v), rest5)
            | _ => none
        | _ => none
    | _ => none


end

/-- JavaScript `JSON.parse`: a single value surrounded by whitespace. -/
def jsonParse (raw : String) : Option Json :=
  match parseJsonValue (raw.data.length + 1) raw.data with
  | none => none
  | some (v, rest) =>
    if skipJsonWs rest = [] then some v else none

/-! ## Notification decision schema (src/notifications/schema.ts)

The zod schema is
`z.object({ delivery: z.enum(['send','suppress']), message: z.string().optional(),
reasonCode: z.string().optional() }).strict()`:
`delivery` is required, `message` and `reasonCode` may be absent but must be
strings when present (zod `optional` does not accept `null`), and unknown
keys are rejected.
-/

/-- The parsed decision envelope (`NotificationDecision`). -/
structure NotificationDecision where
  delivery : String
  message : Option String
  reasonCode : Option String
deriving DecidableEq

/-- The `delivery` field check of the zod schema:
`z.enum(['send','suppress'])` on a required key. -/
def parseDeliveryField : Option Json → Option String
  | some (Json.str d) => if d == "send" || d == "suppress" then some d else none
  | _ => none

/-- The `message` / `reasonCode` field check of the zod schema:
`z.string().optional()` — absence is allowed, any non-string (including
`null`) is rejected. -/
def parseOptStringField : Option Json → Option (Option String)
  | none => some none
  | some (Json.str s) => some (some s)
  | _ => none

/-- zod `safeParse` for the strict decision schema, on a parsed JSON value:
reject unknown keys (`.strict()`), then validate each declared field. -/
def notificationDecisionSafeParse : Json → Option NotificationDecision
  | Json.obj l =>
    if l.all (fun p => p.1 == "delivery" || p.1 == "message" || p.1 == "reasonCode") then
      (parseDeliveryField (lookupKey l "delivery")).bind fun d =>
        (parseOptStringField (lookupKey l "message")).bind fun m =>
          (parseOptStringField (lookupKey l "reasonCode")).map fun r =>
            { delivery := d, message := m, reasonCode := r }
    else none
  | _ => none

/-- `parseNotificationDecision(raw)`: `JSON.parse` then strict schema check,
with every failure mapped to `null`. -/
def parseNotificationDecision (raw : String) : Option NotificationDecision :=
  match jsonParse raw with
  | none => none
  | some j => notificationDecisionSafeParse j

/-! ## State store: notifications table (src/state/store.ts)

The `notifications` table is a list of rows in insertion (rowid) order.  The
`id` column is the primary key and `dedupe_key` carries a unique index, so
`INSERT OR IGNORE` inserts exactly when neither collides.
-/

/-- A row of the `notifications` table (all columns of the SQL schema). -/
structure NotificationRow where
  id : String
  source : String
  source_account : Option String
  source_event_id : Option String
  dedupe_key : String
  status : String
  received_at_ms : Nat
  processed_at_ms : Option Nat
  delivery : Option String
  reason_code : Option String
  message_excerpt : Option String
  summary : String
  payload_hash : String
  raw_excerpt : String
  raw_size_bytes : Nat
  raw_truncated : Bool
  duplicate_count : Nat
  first_seen_at_ms : Nat
  last_seen_at_ms : Nat
  thread_id : Option String
  turn_id : Option String
  decision_json : Option String
  error_text : Option String
deriving DecidableEq

/-- A normalized `NotificationEvent` as handed to `appendNotification`. -/
structure NotificationEvent where
  id : String
  source : String
  sourceAccount : Option String
  sourceEventId : Option String
  dedupeKey : String
  status : String
  receivedAtMs : Nat
  summary : String
  payloadHash : String
  rawExcerpt : String
  rawSizeBytes : Nat
  rawTruncated : Bool
  firstSeenAtMs : Nat
  lastSeenAtMs : Nat
deriving DecidableEq

/-- The row written by `appendNotification` for a fresh event (the SQL INSERT
supplies NULL for the processed/decision columns and 0 for the duplicate
count). -/
def rowOfEvent (e : NotificationEvent) : NotificationRow :=
  { id := e.id
    source := e.source
    source_account := e.sourceAccount
    source_event_id := e.sourceEventId
    dedupe_key := e.dedupeKey
    status := e.status
    received_at_ms := e.receivedAtMs
    processed_at_ms := none
    delivery := none
    reason_code := none
    message_excerpt := none
    summary := e.summary
    payload_hash := e.payloadHash
    raw_excerpt := e.rawExcerpt
    raw_size_bytes := e.rawSizeBytes
    raw_truncated := e.rawTruncated
    duplicate_count := 0
    first_seen_at_ms := e.firstSeenAtMs
    last_seen_at_ms := e.lastSeenAtMs
    thread_id := none
    turn_id := none
    decision_json := none
    error_text := none }

/-- Result shape of `StateStore.appendNotification`. -/
structure AppendResult where
  inserted : Bool
  id : String
  duplicateOf : Option String
deriving DecidableEq

/-- The conflict-branch row update of `appendNotification`
(`UPDATE notifications SET duplicate_count = duplicate_count + 1,
last_seen_at_ms = ? WHERE id = ?`). -/
def bumpDuplicateRow (existingId : String) (now : Nat) (r : NotificationRow) :
    NotificationRow :=
  if r.id == existingId then
    { r with duplicate_count := r.duplicate_count + 1, last_seen_at_ms := now }
  else r

/-- `StateStore.appendNotification`: `INSERT OR IGNORE` on the table, then on
conflict increment the duplicate count and refresh `last_seen_at_ms` of the
row holding the dedupe key, returning its id. -/
def appendNotification (table : List NotificationRow) (e : NotificationEvent)
    (now : Nat) : List NotificationRow × AppendResult :=
  if table.any (fun r => r.id == e.id || r.dedupe_key == e.dedupeKey) then
    match table.find? (fun r => r.dedupe_key == e.dedupeKey) with
    | none => (table, ⟨false, e.id, none⟩)
    | some existing =>
      (table.map (bumpDuplicateRow existing.id now),
       ⟨false, existing.id, some existing.id⟩)
  else
    (table ++ [rowOfEvent e], ⟨true, e.id, none⟩)

/-- `StateStore.getNotificationById`. -/
def getNotificationById (table : List NotificationRow) (id : String) :
    Option NotificationRow :=
  table.find? (fun r => r.id == id)

/-- Status filter of the claim query: `status IN ('received', 'queued')`. -/
def eligibleForClaim (r : NotificationRow) : Bool :=
  r.status == "received" || r.status == "queued"

/-- Strict comparison realizing `ORDER BY received_at_ms ASC, id ASC`. -/
def rowKeyLt (a b : NotificationRow) : Bool :=
  a.received_at_ms < b.received_at_ms ||
    (a.received_at_ms == b.received_at_ms && decide (a.id < b.id))

/-- First minimal element of a nonempty list under `rowKeyLt`. -/
def selectMinRow (r : NotificationRow) (rs : List NotificationRow) : NotificationRow :=
  rs.foldl (fun best x => if rowKeyLt x best then x else best) r

/-- The `SELECT id ... ORDER BY received_at_ms ASC, id ASC LIMIT 1` candidate. -/
def claimCandidate (table : List NotificationRow) : Option NotificationRow :=
  match table.filter eligibleForClaim with
  | [] => none
  | r :: rs => some (selectMinRow r rs)

/-- The claim-branch row update (`UPDATE notifications SET status =
'processing', processed_at_ms = ? WHERE id = ? AND status IN
('received', 'queued')`). -/
def claimUpdateRow (candidateId : String) (now : Nat) (r : NotificationRow) :
    NotificationRow :=
  if r.id == candidateId && eligibleForClaim r then
    { r with status := "processing", processed_at_ms := some now }
  else r

/-- `StateStore.claimNextQueuedNotification`: pick the oldest
received-or-queued row, set it to `processing` with a processed timestamp,
and return the updated row.  Returns the claimed row (if any) and the updated
table. -/
def claimNextQueuedNotification (table : List NotificationRow) (now : Nat) :
    Option NotificationRow × List NotificationRow :=
  match claimCandidate table with
  | none => (none, table)
  | some c =>
    let updated := table.map (claimUpdateRow c.id now)
    (getNotificationById updated c.id, updated)

/-- `clipText(value, maxChars)` from src/state/store.ts. -/
def clipText (value : String) (maxChars : Nat) : String :=
  let trimmed := jsTrim value
  if trimmed.data.length ≤ maxChars then trimmed
  else String.mk (trimRightChars (trimmed.data.take (maxChars - 1)) ++ ['…'])

/-- `StateStore.recordNotificationFailure`: set status `failed`, record the
clipped error text, and keep existing thread/turn ids when none are given
(`COALESCE`). -/
def recordNotificationFailure (table : List NotificationRow) (id : String)
    (errorText : String) (threadId : Option String) (turnId : Option String)
    (now : Nat) : List NotificationRow :=
  table.map (fun r =>
    if r.id == id then
      { r with
          status := "failed"
          processed_at_ms := some now
          error_text := some (clipText errorText 4000)
          thread_id := threadId.orElse (fun _ => r.thread_id)
          turn_id := turnId.orElse (fun _ => r.turn_id) }
    else r)

/-- Minimal model of `JSON.stringify` string escaping (enough for the decision
payloads stored in `decision_json`). -/
def jsonEscape (s : String) : String :=
  String.mk (s.data.flatMap (fun c =>
    if c = '"' then ['\\', '"']
    else if c = '\\' then ['\\', '\\']
    else if c = '\n' then ['\\', 'n']
    else if c = '\r' then ['\\', 'r']
    else if c = '\t' then ['\\', 't']
    else [c]))

/-- `JSON.stringify` of a decision: keys in declaration order, absent optional
fields omitted (JavaScript omits `undefined` properties). -/
def stringifyDecision (d : NotificationDecision) : String :=
  "\x7b\"delivery\":\"" ++ jsonEscape d.delivery ++ "\"" ++
    (match d.message with
     | some m => ",\"message\":\"" ++ jsonEscape m ++ "\""
     | none => "") ++
    (match d.reasonCode with
     | some r => ",\"reasonCode\":\"" ++ jsonEscape r ++ "\""
     | none => "") ++ "\x7d"

/-- `StateStore.recordNotificationDecision`. -/
def recordNotificationDecision (table : List NotificationRow) (id : String)
    (status : String) (d : NotificationDecision) (threadId : Option String)
    (turnId : Option String) (now : Nat) : List NotificationRow :=
  table.map (fun r =>
    if r.id == id then
      { r with
          status := status
          processed_at_ms := some now
          delivery := some d.delivery
          reason_code := d.reasonCode
          message_excerpt :=
            (fun t => if t = "" then none else some t) (clipText (d.message.getD "") 1000)
          decision_json := some (stringifyDecision d)
          thread_id := threadId.orElse (fun _ => r.thread_id)
          turn_id := turnId.orElse (fun _ => r.turn_id)
          error_text := none }
    else r)

/-! ## Flags (src/state/store.ts)

The `flags` table maps keys to string values.  `getFlag` writes the default
back when the key is missing; only the returned values matter here.
-/

/-- The `paused` / `auto_approve` pair returned by `StateStore.getFlags`. -/
structure BridgeFlags where
  paused : Bool
  autoApprove : Bool
deriving DecidableEq

/-- Read of a single flag with its default (`getFlag`). -/
def getFlag (flagsTable : List (String × String)) (key dflt : String) : String :=
  match flagsTable.find? (fun p => p.1 == key) with
  | some kv => kv.2
  | none => dflt

/-- `StateStore.getFlags`: `paused` defaults to `'0'`, `auto_approve`
defaults to `'1'`, and each flag is on exactly when its value is `'1'`. -/
def getFlags (flagsTable : List (String × String)) : BridgeFlags :=
  { paused := getFlag flagsTable "paused" "0" == "1"
    autoApprove := getFlag flagsTable "auto_approve" "1" == "1" }

/-! ## Session manager (src/codex/sessionManager.ts) -/

def STANDARD_CODEX_MODEL : String := "gpt-5.3-codex"

def SPARK_CODEX_MODEL : String := "gpt-5.3-codex-spark"

/-- Session-level persistent settings touched by the model logic: the
session row model plus the `reasoning_effort_by_model` and
`spark_return_target` flags. -/
structure SessionSettings where
  model : String
  effortByModel : List (String × String)
  sparkReturnTarget : Option (String × String)
deriving DecidableEq

/-- `defaultReasoningEffortForModel` from src/state/store.ts. -/
def defaultReasoningEffortForModel (model : String) : String :=
  if strIncludes (strToLower model) "spark" then "xhigh" else "medium"

/-- `StateStore.getReasoningEffortForModel`. -/
def getReasoningEffortForModel (st : SessionSettings) (model : String) : String :=
  match st.effortByModel.find? (fun p => p.1 == model) with
  | some kv => kv.2
  | none => defaultReasoningEffortForModel model

/-- `StateStore.setModel` (the session-row update). -/
def storeSetModel (st : SessionSettings) (model : String) : SessionSettings :=
  { st with model := model }

/-- `isSparkModelAccessError`, applied to the error message string: the
lowercased message must mention the spark model and one of the listed
access-failure phrases.  (Errors without a string `message` never match; they
are represented here by the absent case of the caller.) -/
def isSparkModelAccessError (message : String) : Bool :=
  let lower := strToLower message
  (strIncludes lower SPARK_CODEX_MODEL) &&
    (strIncludes lower "not available" || strIncludes lower "not permitted" ||
     strIncludes lower "not enabled" || strIncludes lower "insufficient" ||
     strIncludes lower "permission" || strIncludes lower "access denied" ||
     strIncludes lower "unauthorized" || strIncludes lower "forbidden" ||
     strIncludes lower "pro")

/-- Payload of the emitted `modelFallback` event. -/
structure ModelFallbackEvent where
  fromModel : String
  toModel : String
  toEffort : String
  operation : String
  reason : String
deriving DecidableEq

/-- `CodexSessionManager.maybeFallbackFromSparkModel`: returns whether the
fallback fired, the updated settings, and the emitted events. -/
def maybeFallbackFromSparkModel (st : SessionSettings) (errMsg : String)
    (operation : String) : Bool × SessionSettings × List ModelFallbackEvent :=
  if st.model ≠ SPARK_CODEX_MODEL then (false, st, [])
  else if ¬ isSparkModelAccessError errMsg then (false, st, [])
  else
    let st1 := storeSetModel st STANDARD_CODEX_MODEL
    let toEffort := getReasoningEffortForModel st1 STANDARD_CODEX_MODEL
    (true, st1,
      [{ fromModel := SPARK_CODEX_MODEL
         toModel := STANDARD_CODEX_MODEL
         toEffort := toEffort
         operation := operation
         reason := errMsg }])

/-- Result of one `requestWithSparkModelFallback` run: the final outcome, the
settings afterwards, the number of RPC calls issued, and the events emitted. -/
structure SparkFallbackRun (α : Type) where
  outcome : Except String α
  settings : SessionSettings
  rpcCalls : Nat
  events : List ModelFallbackEvent

/-- `CodexSessionManager.requestWithSparkModelFallback`: issue the request;
on failure run the fallback check, and if it fired re-issue the request once
(its result is final either way).  `r1` and `r2` are the results the RPC
layer would return for the first and second attempt. -/
def requestWithSparkModelFallback {α : Type} (st : SessionSettings)
    (r1 r2 : Except String α) (operation : String) : SparkFallbackRun α :=
  match r1 with
  | Except.ok v => ⟨Except.ok v, st, 1, []⟩
  | Except.error e =>
    match maybeFallbackFromSparkModel st e operation with
    | (true, st1, evs) => ⟨r2, st1, 2, evs⟩
    | (false, _, _) => ⟨Except.error e, st, 1, []⟩

/-- `CodexSessionManager.setModel`: enforce the configured prefix, persist
the model, and return it with the current effort for it. -/
def setModel (modelPrefix : String) (st : SessionSettings) (model : String) :
    Except String (SessionSettings × String × String) :=
  if ¬ strStartsWith model modelPrefix then
    Except.error ("Model must start with " ++ modelPrefix)
  else
    let st1 := storeSetModel st model
    Except.ok (st1, model, getReasoningEffortForModel st1 model)

/-- The `approvalPolicy` chosen by `ensureThread` for `thread/start`:
`'on-request'` exactly when flags were passed with `autoApprove === false`. -/
def threadStartApprovalPolicy (flags : Option BridgeFlags) : String :=
  match flags with
  | some f => if f.autoApprove = false then "on-request" else "never"
  | none => "never"

/-- Visible effect of `CodexSessionManager.handleServerRequest` on one
server-initiated request. -/
inductive ServerRequestReply where
  | toolCall
  | unsupported (code : Int)
  | approval (decision : String) (audits : List String) (declinedEmitted : Bool)
deriving DecidableEq

/-- `CodexSessionManager.handleServerRequest`: dynamic tool calls are routed
separately, unknown methods get JSON-RPC error −32601, and approval requests
are answered from the flags, audited in both directions, with
`approvalDeclinedDueToPolicy` emitted exactly on the declining condition. -/
def handleServerRequest (method : String) (flags : BridgeFlags) : ServerRequestReply :=
  if method == "item/tool/call" then ServerRequestReply.toolCall
  else if method ≠ "item/commandExecution/requestApproval" ∧
      method ≠ "item/fileChange/requestApproval" then
    ServerRequestReply.unsupported (-32601)
  else
    let decision := if flags.autoApprove && !flags.paused then "accept" else "decline"
    ServerRequestReply.approval decision ["approval_request", "approval_response"]
      (!flags.autoApprove || flags.paused)

/-! ## Bridge orchestrator (src/bridge.ts) -/

/-- In-memory context of a turn (`TurnContext`). -/
structure TurnContext where
  mode : String
  notificationId : Option String
  attempt : Option Nat
  latestAssistantText : Option String
deriving DecidableEq

/-- `formatNotificationFallbackMessage`. -/
def formatNotificationFallbackMessage (n : NotificationRow) : String :=
  "Notification (" ++ n.source ++ "): " ++ n.summary

/-- Externally visible action taken when a notification-mode turn completes. -/
inductive NotificationTurnOutcome where
  | ignored
  | turnFailed (errorText : String)
  | retry (notification : NotificationRow) (attempt : Nat)
  | fallbackDispatch (sentText : String)
  | suppressed (decision : NotificationDecision)
  | sent (message : String) (decision : NotificationDecision)
deriving DecidableEq

/-- `BridgeService.applyNotificationDecision`: suppress records the decision
without any outbound message; send dispatches the decision message, falling
back to the formatted summary when the message is empty or absent. -/
def applyNotificationDecision (table : List NotificationRow)
    (notificationId turnId : String) (d : NotificationDecision)
    (sessionThreadId : Option String) (now : Nat) :
    NotificationTurnOutcome × List NotificationRow :=
  let fallbackMessage :=
    match getNotificationById table notificationId with
    | some n => formatNotificationFallbackMessage n
    | none => "Notification received."
  let resolvedMessage :=
    if jsTrim (d.message.getD "") = "" then fallbackMessage
    else jsTrim (d.message.getD "")
  if d.delivery == "suppress" then
    (NotificationTurnOutcome.suppressed d,
     recordNotificationDecision table notificationId "suppressed" d
       sessionThreadId (some turnId) now)
  else
    (NotificationTurnOutcome.sent resolvedMessage d,
     recordNotificationDecision table notificationId "sent"
       { d with message := some resolvedMessage } sessionThreadId (some turnId) now)

/-- `BridgeService.handleNotificationTurnCompleted`: on failed or interrupted
turns record a failure; on completed turns parse the latest assistant text as
the decision envelope, retrying the decision turn once on an invalid result
and otherwise dispatching a raw fallback and marking the notification
failed. -/
def handleNotificationTurnCompleted (table : List NotificationRow)
    (sessionThreadId : Option String) (turnId status errMsg : String)
    (context : TurnContext) (now : Nat) :
    NotificationTurnOutcome × List NotificationRow :=
  match context.notificationId with
  | none => (NotificationTurnOutcome.ignored, table)
  | some notificationId =>
    if status == "failed" || status == "interrupted" then
      (NotificationTurnOutcome.turnFailed errMsg,
       recordNotificationFailure table notificationId
         ("notification turn " ++ status ++ ": " ++ errMsg)
         sessionThreadId (some turnId) now)
    else
      let rawText := jsTrim (context.latestAssistantText.getD "")
      match parseNotificationDecision rawText with
      | some decision =>
        applyNotificationDecision table notificationId turnId decision sessionThreadId now
      | none =>
        let attempt := context.attempt.getD 1
        let fallbackBranch : NotificationTurnOutcome × List NotificationRow :=
          let fallbackText :=
            if rawText ≠ "" then rawText
            else "Notification received, but decision output was invalid."
          (NotificationTurnOutcome.fallbackDispatch fallbackText,
           recordNotificationFailure table notificationId
             "notification decision invalid after retry; raw fallback sent"
             sessionThreadId (some turnId) now)
        if attempt < 2 then
          match getNotificationById table notificationId with
          | some notification =>
            (NotificationTurnOutcome.retry notification (attempt + 1), table)
          | none => fallbackBranch
        else fallbackBranch

/-- The bridge state consulted by `maybeProcessQueuedNotification`. -/
structure PollState where
  notificationTurnsEnabled : Bool
  activeTurnId : Option String
  notifications : List NotificationRow
deriving DecidableEq

/-- `BridgeService.maybeProcessQueuedNotification`: after inbound handling, a
poll pass claims and starts at most one queued notification, and only when
the session has no active turn.  The second component is the notification for
which a decision turn (attempt 1) is started. -/
def maybeProcessQueuedNotification (st : PollState) (now : Nat) :
    PollState × Option NotificationRow :=
  if ¬ st.notificationTurnsEnabled then (st, none)
  else if st.activeTurnId.isSome then (st, none)
  else
    match claimNextQueuedNotification st.notifications now with
    | (none, _) => (st, none)
    | (some queued, table1) => ({ st with notifications := table1 }, some queued)

/-- The `/model` case of `BridgeService.executeCommand`: the argument words
are joined and trimmed, `setModel` is called on the result, and the response
echoes the model.  Returns the updated settings with the response text. -/
def executeModelCommand (modelPrefix : String) (st : SessionSettings)
    (args : List String) : Except String (SessionSettings × String) :=
  if args.length = 0 then
    Except.ok (st, "Usage: /model <id>\nAllowed prefix: " ++ modelPrefix)
  else
    let model := jsTrim (String.intercalate " " args)
    match setModel modelPrefix st model with
    | Except.error e => Except.error e
    | Except.ok (st1, _, _) => Except.ok (st1, "Model set: " ++ model)

/-! ## Webhook ingress (src/notifications/webhookServer.ts) -/

/-- An incoming HTTP request as seen by `handleRequest` (header values after
node lowercases the names; absent headers are `none`). -/
structure WebhookRequest where
  url : String
  method : String
  authorization : Option String
  xBridgeSecret : Option String
deriving DecidableEq

/-- `headerValue`: trim the header value and drop it when empty.  (The
array-valued branch of the source takes the first entry and is represented by
that entry here.) -/
def headerValue (v : Option String) : Option String :=
  match v with
  | some s => if jsTrim s ≠ "" then some (jsTrim s) else none
  | none => none

/-- The `replace(/^bearer\s+/i, '')` step: strip a leading case-insensitive
`bearer` followed by at least one whitespace character together with that
whitespace run. -/
def stripBearerWs (cs : List Char) : List Char :=
  if (cs.take 6).map Char.toLower = "bearer".data then
    match cs.drop 6 with
    | c :: rest => if isWsChar c then rest.dropWhile isWsChar else cs
    | [] => cs
  else cs

/-- The token extracted from an `Authorization` header value. -/
def tokenOfAuthHeader (s : String) : String :=
  jsTrim (String.mk (stripBearerWs s.data))

/-- `NotificationWebhookServer.isAuthorized`: a present `Authorization`
header that yields a non-empty token is decisive; otherwise the
`X-Bridge-Secret` header is compared; otherwise unauthorized. -/
def isAuthorized (req : WebhookRequest) (secret : String) : Bool :=
  let viaAuth : Option Bool :=
    match headerValue req.authorization with
    | some h =>
      let token := tokenOfAuthHeader h
      if token.data.length > 0 then some (token == secret) else none
    | none => none
  match viaAuth with
  | some b => b
  | none =>
    match headerValue req.xBridgeSecret with
    | some s => s == secret
    | none => false

/-- Progress of `handleRequest` up to body parsing. -/
inductive WebhookOutcome where
  | notFound
  | methodNotAllowed
  | unauthorized
  | accepted
deriving DecidableEq

/-- The routing and authorization phase of
`NotificationWebhookServer.handleRequest`: 404 off the configured path, 405
for non-POST, 401 when `isAuthorized` fails, else proceed to body parsing. -/
def handleRequestAuthPhase (req : WebhookRequest) (path secret : String) :
    WebhookOutcome :=
  if req.url ≠ path then WebhookOutcome.notFound
  else if req.method ≠ "POST" then WebhookOutcome.methodNotAllowed
  else if ¬ isAuthorized req secret then WebhookOutcome.unauthorized
  else WebhookOutcome.accepted

/-! ## Outbound chunking: `splitMessage` (src/bridge.ts)

`splitMessage(text, maxChars)` normalizes CRLF to LF, trims, and repeatedly
cuts a chunk of at most `maxChars` characters, preferring the last newline at
or before `maxChars` when it lies at or beyond 40% of `maxChars`, then the
last space, then a hard cut at `maxChars`.  Both the emitted chunk and the
remainder are trimmed.  The `while` loop is embedded with fuel; since every
iteration removes at least one character (for a positive `maxChars`), fuel
equal to the initial length always suffices.
-/

/-- `text.replace(/\r\n/g, '\n')`. -/
def normCrlf : List Char → List Char
  | [] => []
  | '\r' :: '\n' :: rest => '\n' :: normCrlf rest
  | c :: rest => c :: normCrlf rest

/-- `s.lastIndexOf(c, k)`: index of the last occurrence of `c` at position at
most `k`, or `none` (JavaScript −1). -/
def lastIndexOfWithinAux (c : Char) : List Char → Nat → Nat → Option Nat → Option Nat
  | [], _, _, acc => acc
  | x :: rest, i, k, acc =>
    if i > k then acc
    else lastIndexOfWithinAux c rest (i + 1) k (if x = c then some i else acc)

def lastIndexOfWithin (c : Char) (cs : List Char) (k : Nat) : Option Nat :=
  lastIndexOfWithinAux c cs 0 k none

/-- The split position chosen by one loop iteration.  The JavaScript −1
sentinel is modeled with `Int`; `Math.floor(maxChars * 0.4)` equals
`2 * maxChars / 5` at the call site (`maxChars = 1200` gives 480). -/
def computeSplitAt (maxChars : Nat) (rem : List Char) : Nat :=
  let nlIdx : Int :=
    match lastIndexOfWithin '\n' rem maxChars with
    | some i => (i : Int)
    | none => -1
  let threshold : Int := ((2 * maxChars) / 5 : Nat)
  let chosen : Int :=
    if nlIdx < threshold then
      match lastIndexOfWithin ' ' rem maxChars with
      | some i => (i : Int)
      | none => -1
    else nlIdx
  if chosen < 1 then maxChars else chosen.toNat

/-- The `while (remaining.length > maxChars)` loop body plus the final push. -/
def splitLoop (maxChars : Nat) : Nat → List Char → List (List Char)
  | 0, rem => if rem.isEmpty then [] else [rem]
  | fuel + 1, rem =>
    if rem.length > maxChars then
      let k := computeSplitAt maxChars rem
      trimChars (rem.take k) :: splitLoop maxChars fuel (trimChars (rem.drop k))
    else if rem.isEmpty then [] else [rem]

/-- `splitMessage(text, maxChars)`. -/
def splitMessage (text : List Char) (maxChars : Nat) : List (List Char) :=
  let normalized := trimChars (normCrlf text)
  if normalized.length ≤ maxChars then [normalized]
  else splitLoop maxChars normalized.length normalized

/-- Interleave chunks with separator runs: `glue [c₁, c₂, …] [w₁, …]` is
`c₁ ++ w₁ ++ c₂ ++ w₂ ++ …`. -/
def glue : List (List Char) → List (List Char) → List Char
  | [], _ => []
  | c :: cs, [] => c ++ glue cs []
  | c :: cs, w :: ws => c ++ w ++ glue cs ws

/-! ## Specification-side predicates

Declarative restatements of properties from the specification, used on the
right-hand sides of characterization theorems.
-/

/-- Declarative acceptance condition of the decision envelope as the code
implements it: an object whose keys all come from the envelope, with
`delivery` present and equal to `"send"` or `"suppress"`, and with `message`
and `reasonCode` absent or strings. -/
def decisionEnvelopeAccepts (j : Json) : Prop :=
  ∃ l, j = Json.obj l ∧
    (∀ p ∈ l, p.1 = "delivery" ∨ p.1 = "message" ∨ p.1 = "reasonCode") ∧
    (lookupKey l "delivery" = some (Json.str "send") ∨
      lookupKey l "delivery" = some (Json.str "suppress")) ∧
    (lookupKey l "message" = none ∨ ∃ s, lookupKey l "message" = some (Json.str s)) ∧
    (lookupKey l "reasonCode" = none ∨ ∃ s, lookupKey l "reasonCode" = some (Json.str s))

/-- Webhook authorization as the code implements it: a usable (non-empty)
`Authorization` token is decisive and must equal the secret; only when no
usable token exists is `X-Bridge-Secret` compared. -/
def webhookSecretAccepted (req : WebhookRequest) (secret : String) : Prop :=
  (∃ h, headerValue req.authorization = some h ∧
      tokenOfAuthHeader h ≠ "" ∧ tokenOfAuthHeader h = secret) ∨
  ((∀ h, headerValue req.authorization = some h → tokenOfAuthHeader h = "") ∧
    headerValue req.xBridgeSecret = some secret)

/-- Uniqueness of `dedupe_key` across the stored rows. -/
def dedupeKeysUnique (table : List NotificationRow) : Prop :=
  table.Pairwise (fun a b => a.dedupe_key ≠ b.dedupe_key)

/-- Uniqueness of the `id` primary key across the stored rows. -/
def notificationIdsUnique (table : List NotificationRow) : Prop :=
  table.Pairwise (fun a b => a.id ≠ b.id)

/-! ## Concrete example data used in closed theorems -/

/-- The seed-scenario decision text
`{"delivery":"suppress","message":null,"reasonCode":"deploy_noise"}`. -/
def seedSuppressNullText : String :=
  "\x7b\"delivery\":\"suppress\",\"message\":null,\"reasonCode\":\"deploy_noise\"\x7d"

/-- A stored webhook notification row with summary `build failed` (the seed
scenario of the specification), already claimed for processing. -/
def exampleWebhookRow : NotificationRow :=
  { id := "nfy_1"
    source := "webhook"
    source_account := none
    source_event_id := some "evt_1"
    dedupe_key := "event:webhook:-:evt_1"
    status := "processing"
    received_at_ms := 1000
    processed_at_ms := some 1500
    delivery := none
    reason_code := none
    message_excerpt := none
    summary := "build failed"
    payload_hash := "h1"
    raw_excerpt := "\x7b\"event_id\":\"evt_1\"\x7d"
    raw_size_bytes := 20
    raw_truncated := false
    duplicate_count := 0
    first_seen_at_ms := 1000
    last_seen_at_ms := 1000
    thread_id := none
    turn_id := some "turn_n1"
    decision_json := none
    error_text := none }

/-- The C7 counterexample text: 480 `x`, a newline, then 721 `y` (1202
characters); `splitMessage` cuts at the newline and drops it. -/
def splitCounterexampleText : List Char :=
  List.replicate 480 'x' ++ '\n' :: List.replicate 721 'y'

/-- A normalized webhook event used in witnesses. -/
def exampleEventA : NotificationEvent :=
  { id := "nfy_a"
    source := "webhook"
    sourceAccount := none
    sourceEventId := some "evt_9"
    dedupeKey := "event:webhook:-:evt_9"
    status := "queued"
    receivedAtMs := 100
    summary := "disk almost full"
    payloadHash := "hash9"
    rawExcerpt := "raw9"
    rawSizeBytes := 4
    rawTruncated := false
    firstSeenAtMs := 100
    lastSeenAtMs := 100 }

/-- A re-delivery of `exampleEventA`: fresh generated id, same dedupe key. -/
def exampleEventB : NotificationEvent :=
  { exampleEventA with
    id := "nfy_b"
    receivedAtMs := 200
    firstSeenAtMs := 200
    lastSeenAtMs := 200 }

/-- The spark access error of seed scenario 4. -/
def sparkErrorMessageExample : String :=
  "RPC error -32000: model gpt-5.3-codex-spark is not available for this account"

/-- The webhook request of the C8 counterexample: a wrong bearer token next
to a correct `X-Bridge-Secret`. -/
def shadowedWebhookRequest : WebhookRequest :=
  { url := "/hook"
    method := "POST"
    authorization := some "Bearer wrong-token"
    xBridgeSecret := some "s3cret" }

/-! # Theorems -/

/-- C1 (counterexample): the seed decision text
`{"delivery":"suppress","message":null,"reasonCode":"deploy_noise"}` is valid
JSON, yet `parseNotificationDecision` rejects it, because the schema models
`message` and `reasonCode` with `z.string().optional()`, which does not
accept `null`.  The claim says this text parses as a valid suppress
decision. -/
theorem parseNotificationDecision_rejects_seed_null_message :
    (jsonParse seedSuppressNullText).isSome = true ∧
    parseNotificationDecision seedSuppressNullText = none := by
  constructor
  · decide
  · decide

/-- C3 (counterexample): a notification decision turn that completes on
attempt 2 with empty assistant text dispatches the fixed string
`Notification received, but decision output was invalid.`, not the formatted
`Notification ({source}): {summary}` fallback that the claim names. -/
theorem handleNotificationTurnCompleted_fallback_text_counterexample :
    (handleNotificationTurnCompleted [exampleWebhookRow] none "turn_n1" "completed" ""
        ⟨"notification", some "nfy_1", some 2, some ""⟩ 2000).1 =
      NotificationTurnOutcome.fallbackDispatch
        "Notification received, but decision output was invalid." ∧
    formatNotificationFallbackMessage exampleWebhookRow =
      "Notification (webhook): build failed" ∧
    NotificationTurnOutcome.fallbackDispatch
        "Notification received, but decision output was invalid." ≠
      NotificationTurnOutcome.fallbackDispatch "Notification (webhook): build failed" := by
  refine ⟨?_, ?_, ?_⟩
  · decide
  · decide
  · decide

/-- C7 (counterexample): for the 1202-character text `x`*480 ++ `"\n"` ++
`y`*721, `splitMessage(text, 1200)` cuts at the newline and drops it while
trimming, so the concatenation of the chunks differs from the CRLF-normalized
trimmed input.  The claimed law `splitMessage(text, n).join("") ==
text.trim()` therefore fails. -/
theorem splitMessage_join_ne_trim_counterexample :
    (splitMessage splitCounterexampleText 1200).flatten ≠
      trimChars (normCrlf splitCounterexampleText) := by
  decide

/-! ### C7 (amended): chunk bound and whitespace-glue reconstruction

Helper lemmas about `dropWhile`, trimming, `computeSplitAt` and the split
loop, leading to the amended chunking law: chunks are bounded by
`maxChars` and, interleaved with the whitespace runs dropped at each cut,
concatenate to the normalized trimmed input. -/

theorem dropWhile_length_le (p : Char → Bool) (l : List Char) :
    (l.dropWhile p).length ≤ l.length :=
  (List.dropWhile_sublist p (l := l)).length_le

theorem dropWhile_eq_self_of_length (p : Char → Bool) :
    ∀ l : List Char, (l.dropWhile p).length = l.length → l.dropWhile p = l := by
  intro l h
  induction l with
  | nil => simp
  | cons c t ih =>
    by_cases hp : p c = true
    · rw [List.dropWhile_cons, if_pos hp] at h
      have := dropWhile_length_le p t
      simp at h
      omega
    · rw [List.dropWhile_cons, if_neg hp]

theorem dropWhile_head_false (p : Char → Bool) (c : Char) (t : List Char)
    (h : (c :: t).dropWhile p = c :: t) : p c = false := by
  by_cases hp : p c = true
  · rw [List.dropWhile_cons, if_pos hp] at h
    have hle := dropWhile_length_le p t
    have : t.length + 1 ≤ t.length := by
      calc t.length + 1 = (c :: t).length := by simp
        _ = (t.dropWhile p).length := by rw [h]
        _ ≤ t.length := hle
    omega
  · simpa using hp

theorem dropWhile_idem (p : Char → Bool) :
    ∀ l : List Char, (l.dropWhile p).dropWhile p = l.dropWhile p := by
  intro l
  induction l with
  | nil => simp
  | cons c t ih =>
    by_cases hp : p c = true
    · rw [List.dropWhile_cons, if_pos hp]; exact ih
    · rw [List.dropWhile_cons, if_neg hp, List.dropWhile_cons, if_neg hp]

theorem trimLeftChars_length_le (l : List Char) :
    (trimLeftChars l).length ≤ l.length :=
  dropWhile_length_le isWsChar l

theorem trimRightChars_length_le (l : List Char) :
    (trimRightChars l).length ≤ l.length := by
  unfold trimRightChars
  calc (l.reverse.dropWhile isWsChar).reverse.length
      = (l.reverse.dropWhile isWsChar).length := by simp
    _ ≤ l.reverse.length := dropWhile_length_le isWsChar l.reverse
    _ = l.length := by simp

theorem trimChars_length_le (l : List Char) :
    (trimChars l).length ≤ l.length :=
  le_trans (trimRightChars_length_le _) (trimLeftChars_length_le l)

theorem trim_eq_self_parts (l : List Char) (h : trimChars l = l) :
    trimLeftChars l = l ∧ trimRightChars l = l := by
  have h1 : (trimLeftChars l).length = l.length := by
    have hle1 := trimLeftChars_length_le l
    have hle2 := trimRightChars_length_le (trimLeftChars l)
    have : (trimChars l).length = l.length := by rw [h]
    unfold trimChars at this
    omega
  have hL : trimLeftChars l = l := dropWhile_eq_self_of_length isWsChar l h1
  refine ⟨hL, ?_⟩
  unfold trimChars at h
  rwa [hL] at h

theorem trimRight_eq_self_of_rev_dropWhile (l : List Char)
    (h : l.reverse.dropWhile isWsChar = l.reverse) : trimRightChars l = l := by
  unfold trimRightChars
  rw [h, List.reverse_reverse]

theorem rev_dropWhile_of_trimRight_eq_self (l : List Char)
    (h : trimRightChars l = l) : l.reverse.dropWhile isWsChar = l.reverse := by
  unfold trimRightChars at h
  have := congrArg List.reverse h
  rwa [List.reverse_reverse] at this

theorem trimRight_decomp (l : List Char) :
    ∃ ws : List Char, (∀ c ∈ ws, isWsChar c = true) ∧ l = trimRightChars l ++ ws := by
  refine ⟨(l.reverse.takeWhile isWsChar).reverse, ?_, ?_⟩
  · intro c hc
    rw [List.mem_reverse] at hc
    exact List.mem_takeWhile_imp hc
  · unfold trimRightChars
    rw [← List.reverse_append, List.takeWhile_append_dropWhile, List.reverse_reverse]

theorem trimLeft_decomp (l : List Char) :
    ∃ ws : List Char, (∀ c ∈ ws, isWsChar c = true) ∧ l = ws ++ trimLeftChars l := by
  refine ⟨l.takeWhile isWsChar, ?_, ?_⟩
  · intro c hc
    exact List.mem_takeWhile_imp hc
  · unfold trimLeftChars
    rw [List.takeWhile_append_dropWhile]

theorem trimChars_idem (l : List Char) : trimChars (trimChars l) = trimChars l := by
  set z := trimLeftChars l with hz
  have hzidem : trimLeftChars z = z := dropWhile_idem isWsChar l
  set y := trimRightChars z with hy
  have hyR : trimRightChars y = y := by
    apply trimRight_eq_self_of_rev_dropWhile
    have : y.reverse = z.reverse.dropWhile isWsChar := by
      rw [hy]; unfold trimRightChars; rw [List.reverse_reverse]
    rw [this, dropWhile_idem]
  have hyL : trimLeftChars y = y := by
    cases hyc : y with
    | nil => simp [trimLeftChars]
    | cons c t =>
      obtain ⟨ws, _, hdec⟩ := trimRight_decomp z
      rw [← hy, hyc] at hdec
      have hzc : z = c :: (t ++ ws) := by rw [hdec]; simp
      have : isWsChar c = false := by
        apply dropWhile_head_false isWsChar c (t ++ ws)
        rw [← hzc]
        exact hzc ▸ hzidem
      unfold trimLeftChars
      rw [List.dropWhile_cons, if_neg (by simp [this])]
  show trimRightChars (trimLeftChars y) = y
  rw [hyL, hyR]

theorem lastIndexOfWithinAux_le (c : Char) :
    ∀ (l : List Char) (i k : Nat) (acc : Option Nat),
      (∀ j, acc = some j → j ≤ k) →
      ∀ j, lastIndexOfWithinAux c l i k acc = some j → j ≤ k := by
  intro l
  induction l with
  | nil => intro i k acc hacc j h; exact hacc j h
  | cons x rest ih =>
    intro i k acc hacc j h
    unfold lastIndexOfWithinAux at h
    by_cases hik : i > k
    · rw [if_pos hik] at h; exact hacc j h
    · rw [if_neg hik] at h
      refine ih (i + 1) k _ ?_ j h
      intro j' hj'
      by_cases hx : x = c
      · rw [if_pos hx] at hj'
        have : i = j' := by injection hj'
        omega
      · rw [if_neg hx] at hj'
        exact hacc j' hj'

theorem lastIndexOfWithin_le (c : Char) (l : List Char) (k : Nat) (j : Nat)
    (h : lastIndexOfWithin c l k = some j) : j ≤ k :=
  lastIndexOfWithinAux_le c l 0 k none (by intro j' hj'; cases hj') j h

theorem computeSplitAt_le (maxChars : Nat) (rem : List Char) :
    computeSplitAt maxChars rem ≤ maxChars := by
  unfold computeSplitAt
  cases hnl : lastIndexOfWithin '\n' rem maxChars with
  | none =>
    cases hsp : lastIndexOfWithin ' ' rem maxChars with
    | none =>
      simp only
      repeat' split
      all_goals omega
    | some j =>
      have hj : j ≤ maxChars := lastIndexOfWithin_le ' ' rem maxChars j hsp
      simp only
      repeat' split
      all_goals omega
  | some i =>
    have hi : i ≤ maxChars := lastIndexOfWithin_le '\n' rem maxChars i hnl
    cases hsp : lastIndexOfWithin ' ' rem maxChars with
    | none =>
      simp only
      repeat' split
      all_goals omega
    | some j =>
      have hj : j ≤ maxChars := lastIndexOfWithin_le ' ' rem maxChars j hsp
      simp only
      repeat' split
      all_goals omega

theorem computeSplitAt_pos (maxChars : Nat) (rem : List Char) (h : 1 ≤ maxChars) :
    1 ≤ computeSplitAt maxChars rem := by
  unfold computeSplitAt
  cases hnl : lastIndexOfWithin '\n' rem maxChars with
  | none =>
    cases hsp : lastIndexOfWithin ' ' rem maxChars with
    | none =>
      simp only
      repeat' split
      all_goals omega
    | some j =>
      simp only
      repeat' split
      all_goals omega
  | some i =>
    cases hsp : lastIndexOfWithin ' ' rem maxChars with
    | none =>
      simp only
      repeat' split
      all_goals omega
    | some j =>
      simp only
      repeat' split
      all_goals omega


theorem trim_take_drop_decomp (rem : List Char) (htrim : trimChars rem = rem)
    (k : Nat) (hk1 : 1 ≤ k) (hk2 : k < rem.length) :
    ∃ ws : List Char, (∀ c ∈ ws, isWsChar c = true) ∧
      rem = trimChars (rem.take k) ++ (ws ++ trimChars (rem.drop k)) := by
  obtain ⟨hL, hR⟩ := trim_eq_self_parts rem htrim
  obtain ⟨c, t, hct⟩ : ∃ c t, rem = c :: t := by
    cases rem with
    | nil => simp at hk2
    | cons c t => exact ⟨c, t, rfl⟩
  have hcws : isWsChar c = false := by
    apply dropWhile_head_false isWsChar c t
    have hL' := hL
    unfold trimLeftChars at hL'
    rw [hct] at hL'
    exact hL'
  obtain ⟨k', rfl⟩ : ∃ k', k = k' + 1 := by
    cases k with
    | zero => omega
    | succ k' => exact ⟨k', rfl⟩
  have hA : rem.take (k' + 1) = c :: t.take k' := by rw [hct]; rfl
  have hAL : trimLeftChars (rem.take (k' + 1)) = rem.take (k' + 1) := by
    unfold trimLeftChars
    rw [hA, List.dropWhile_cons, if_neg (by simp [hcws])]
  have hAtrim : trimChars (rem.take (k' + 1)) = trimRightChars (rem.take (k' + 1)) := by
    unfold trimChars
    rw [hAL]
  obtain ⟨wsA, hwsA, hAdec⟩ := trimRight_decomp (rem.take (k' + 1))
  have hBne : rem.drop (k' + 1) ≠ [] := by
    intro h
    have := congrArg List.length h
    simp at this
    omega
  have hsplit : rem.take (k' + 1) ++ rem.drop (k' + 1) = rem := List.take_append_drop _ _
  have hrev : rem.reverse = (rem.drop (k' + 1)).reverse ++ (rem.take (k' + 1)).reverse := by
    conv_lhs => rw [← hsplit]
    rw [List.reverse_append]
  have hRrev : rem.reverse.dropWhile isWsChar = rem.reverse :=
    rev_dropWhile_of_trimRight_eq_self rem hR
  obtain ⟨d, u, hdu⟩ : ∃ d u, (rem.drop (k' + 1)).reverse = d :: u := by
    cases hB : (rem.drop (k' + 1)).reverse with
    | nil => exact absurd (by simpa using hB) hBne
    | cons d u => exact ⟨d, u, rfl⟩
  have hrem_rev : rem.reverse = d :: (u ++ (rem.take (k' + 1)).reverse) := by
    rw [hrev, hdu]
    simp
  have hdws : isWsChar d = false := by
    apply dropWhile_head_false isWsChar d (u ++ (rem.take (k' + 1)).reverse)
    rw [← hrem_rev]
    exact hRrev
  have hBR : trimRightChars (rem.drop (k' + 1)) = rem.drop (k' + 1) := by
    unfold trimRightChars
    rw [hdu, List.dropWhile_cons, if_neg (by simp [hdws]), ← hdu, List.reverse_reverse]
  obtain ⟨wsB, hwsB, hBdec⟩ := trimLeft_decomp (rem.drop (k' + 1))
  have hzne : trimLeftChars (rem.drop (k' + 1)) ≠ [] := by
    intro hz
    rw [hz, List.append_nil] at hBdec
    have hdmem : d ∈ rem.drop (k' + 1) := by
      rw [← List.mem_reverse, hdu]
      exact List.mem_cons_self _ _
    rw [hBdec] at hdmem
    have hwd := hwsB d hdmem
    rw [hdws] at hwd
    exact Bool.false_ne_true hwd
  obtain ⟨f, v, hfv⟩ : ∃ f v, (trimLeftChars (rem.drop (k' + 1))).reverse = f :: v := by
    cases hzz : (trimLeftChars (rem.drop (k' + 1))).reverse with
    | nil => exact absurd (by simpa using hzz) hzne
    | cons f v => exact ⟨f, v, rfl⟩
  have hBrev2 : (rem.drop (k' + 1)).reverse =
      (trimLeftChars (rem.drop (k' + 1))).reverse ++ wsB.reverse := by
    conv_lhs => rw [hBdec]
    rw [List.reverse_append]
  have hdf : d = f := by
    rw [hdu, hfv] at hBrev2
    have hcons : d :: u = f :: (v ++ wsB.reverse) := by simpa using hBrev2
    injection hcons with h1 _
  have hfws : isWsChar f = false := hdf ▸ hdws
  have hzR : trimRightChars (trimLeftChars (rem.drop (k' + 1))) =
      trimLeftChars (rem.drop (k' + 1)) := by
    unfold trimRightChars
    rw [hfv, List.dropWhile_cons, if_neg (by simp [hfws]), ← hfv, List.reverse_reverse]
  have hBtrim : trimChars (rem.drop (k' + 1)) = trimLeftChars (rem.drop (k' + 1)) := by
    unfold trimChars
    exact hzR
  refine ⟨wsA ++ wsB, ?_, ?_⟩
  · intro x hx
    rcases List.mem_append.mp hx with h | h
    · exact hwsA x h
    · exact hwsB x h
  · rw [hAtrim, hBtrim]
    conv_lhs => rw [← hsplit]
    conv_lhs => rw [hAdec]
    conv_lhs => rw [hBdec]
    simp [List.append_assoc]

theorem splitLoop_spec (maxChars : Nat) (hmax : 1 ≤ maxChars) :
    ∀ fuel rem, rem.length ≤ fuel → trimChars rem = rem →
      ((splitLoop maxChars fuel rem).all (fun ch => ch.length ≤ maxChars) = true) ∧
      ∃ seps : List (List Char), (seps.all (fun w => w.all isWsChar) = true) ∧
        glue (splitLoop maxChars fuel rem) seps = rem := by
  intro fuel
  induction fuel with
  | zero =>
    intro rem hlen htrim
    have hnil : rem = [] := List.length_eq_zero.mp (Nat.le_zero.mp hlen)
    subst hnil
    exact ⟨by simp [splitLoop], ⟨[], by simp, by simp [splitLoop, glue]⟩⟩
  | succ fuel ih =>
    intro rem hlen htrim
    by_cases hgt : rem.length > maxChars
    · have hsl : splitLoop maxChars (fuel + 1) rem =
          trimChars (rem.take (computeSplitAt maxChars rem)) ::
            splitLoop maxChars fuel (trimChars (rem.drop (computeSplitAt maxChars rem))) := by
        rw [splitLoop, if_pos hgt]
      set k := computeSplitAt maxChars rem with hk
      have hk1 : 1 ≤ k := computeSplitAt_pos maxChars rem hmax
      have hkle : k ≤ maxChars := computeSplitAt_le maxChars rem
      have hk2 : k < rem.length := lt_of_le_of_lt hkle hgt
      have hlen' : (trimChars (rem.drop k)).length ≤ fuel := by
        have h1 : (trimChars (rem.drop k)).length ≤ (rem.drop k).length := trimChars_length_le _
        have h2 : (rem.drop k).length = rem.length - k := List.length_drop _ _
        omega
      obtain ⟨hall, seps, hseps, hglue⟩ :=
        ih (trimChars (rem.drop k)) hlen' (trimChars_idem _)
      obtain ⟨ws, hws, hdec⟩ := trim_take_drop_decomp rem htrim k hk1 hk2
      have hchunk : (trimChars (rem.take k)).length ≤ maxChars := by
        have h1 : (trimChars (rem.take k)).length ≤ (rem.take k).length := trimChars_length_le _
        have h2 : (rem.take k).length ≤ k := List.length_take_le _ _
        omega
      refine ⟨?_, ⟨ws :: seps, ?_, ?_⟩⟩
      · rw [hsl]
        simp only [List.all_cons, Bool.and_eq_true]
        exact ⟨by simpa using hchunk, hall⟩
      · simp only [List.all_cons, Bool.and_eq_true]
        refine ⟨?_, hseps⟩
        rw [List.all_eq_true]
        intro x hx
        exact hws x hx
      · rw [hsl]
        simp only [glue]
        rw [hglue, List.append_assoc]
        exact hdec.symm
    · have hsl : splitLoop maxChars (fuel + 1) rem =
          if rem.isEmpty then [] else [rem] := by
        rw [splitLoop, if_neg hgt]
      by_cases hemp : rem.isEmpty
      · rw [hsl, if_pos hemp]
        refine ⟨by simp, ⟨[], by simp, ?_⟩⟩
        have hnil : rem = [] := by simpa [List.isEmpty_iff] using hemp
        simp [glue, hnil]
      · rw [hsl, if_neg hemp]
        refine ⟨?_, ⟨[], by simp, ?_⟩⟩
        · simp only [List.all_cons, List.all_nil, Bool.and_true]
          simpa using Nat.le_of_not_lt hgt
        · simp [glue]

/-- C7 (amended): for every input `text`, every chunk returned by
`splitMessage(text, maxChars)` (with a positive limit, 1200 at the call
site) has length at most `maxChars`, and the chunks concatenate back to
the CRLF-normalized trimmed input once the all-whitespace separator runs
removed at each cut are reinserted between consecutive chunks: there exist
whitespace-only words `seps` with `glue chunks seps = trim(normalize(text))`.
The exact law `join("") = trim` of the claim fails (see the counterexample
above); dropping the cut separators is the only difference. -/
theorem splitMessage_chunk_bound_and_glue (text : List Char) (maxChars : Nat)
    (hmax : 1 ≤ maxChars) :
    ((splitMessage text maxChars).all (fun ch => ch.length ≤ maxChars) = true) ∧
    ∃ seps : List (List Char), (seps.all (fun w => w.all isWsChar) = true) ∧
      glue (splitMessage text maxChars) seps = trimChars (normCrlf text) := by
  unfold splitMessage
  simp only
  by_cases hle : (trimChars (normCrlf text)).length ≤ maxChars
  · rw [if_pos hle]
    refine ⟨?_, ⟨[], by simp, by simp [glue]⟩⟩
    simp only [List.all_cons, List.all_nil, Bool.and_true]
    simpa using hle
  · rw [if_neg hle]
    exact splitLoop_spec maxChars hmax _ _ le_rfl (trimChars_idem _)

/-- Witness: `splitMessage "ab cd" 3` splits into `["ab", "cd"]` with the
single separator run `" "` glued back between them. -/
theorem splitMessage_chunk_bound_and_glue_witness :
    (1 ≤ 3) ∧
    (((splitMessage ("ab cd".data) 3).all (fun ch => ch.length ≤ 3) = true) ∧
      ∃ seps : List (List Char), (seps.all (fun w => w.all isWsChar) = true) ∧
        glue (splitMessage ("ab cd".data) 3) seps = trimChars (normCrlf ("ab cd".data))) :=
  ⟨by decide, splitMessage_chunk_bound_and_glue ("ab cd".data) 3 (by decide)⟩

/-- C8 (counterexample): a request carrying a wrong bearer token together
with a correct `X-Bridge-Secret` header is rejected with 401, although the
`X-Bridge-Secret` header carries the configured secret: a usable
`Authorization` token shadows the second header, contradicting the claimed
`401 iff neither header carries the secret`. -/
theorem webhook_auth_shadowing_counterexample :
    handleRequestAuthPhase shadowedWebhookRequest "/hook" "s3cret" =
      WebhookOutcome.unauthorized ∧
    shadowedWebhookRequest.xBridgeSecret = some "s3cret" ∧
    isAuthorized ⟨"/hook", "POST", none, some "s3cret"⟩ "s3cret" = true := by
  refine ⟨?_, ?_, ?_⟩
  · decide
  · decide
  · decide

/-- C9: evaluating the `/model` command of the bridge at the failing input
`/model gpt-5.3-codex-spark-low` shows that the code stores the literal
string `gpt-5.3-codex-spark-low` as the session model and answers
`Model set: gpt-5.3-codex-spark-low`, with no effort-suffix parsing; the
repository test expects `setModelWithEffort('gpt-5.3-codex-spark', 'low')`
here. -/
theorem modelCommand_ignores_effort_suffix :
    executeModelCommand "gpt-5.3-codex" ⟨"gpt-5.3-codex", [], none⟩
        ["gpt-5.3-codex-spark-low"] =
      Except.ok (⟨"gpt-5.3-codex-spark-low", [], none⟩,
        "Model set: gpt-5.3-codex-spark-low") ∧
    ("gpt-5.3-codex-spark-low" : String) ≠ "gpt-5.3-codex-spark" := by
  constructor
  · decide
  · decide

/-- C10: on a fresh store with no flag rows, `getFlags` yields
`paused = false` and `autoApprove = true`, and `ensureThread` therefore picks
the `never` approval policy for its `thread/start` request. -/
theorem freshStore_flags_default_and_approval_policy :
    getFlags [] = ⟨false, true⟩ ∧
    threadStartApprovalPolicy (some (getFlags [])) = "never" ∧
    threadStartApprovalPolicy none = "never" := by
  refine ⟨?_, ?_, ?_⟩
  · decide
  · decide
  · decide

/-- C5: for both approval request methods, the session manager replies with
decision `accept` exactly when `auto_approve` is set and `paused` is not,
otherwise `decline`; it audits the request and the response, and it emits
`approvalDeclinedDueToPolicy` exactly when the decision is `decline`. -/
theorem handleServerRequest_approval_policy (flags : BridgeFlags) :
    ∀ method, (method = "item/commandExecution/requestApproval" ∨
        method = "item/fileChange/requestApproval") →
      ∃ d e, handleServerRequest method flags =
          ServerRequestReply.approval d ["approval_request", "approval_response"] e ∧
        (d = "accept" ↔ (flags.autoApprove = true ∧ flags.paused = false)) ∧
        (d = "accept" ∨ d = "decline") ∧
        (e = true ↔ d = "decline") := by
  intro method hm
  rcases flags with ⟨p, a⟩
  rcases hm with rfl | rfl <;> cases p <;> cases a <;>
    first
      | exact ⟨"accept", false, by decide, by decide, by decide, by decide⟩
      | exact ⟨"decline", true, by decide, by decide, by decide, by decide⟩

/-- C5 (witness): the accepting instance at `paused = false`,
`auto_approve = true`. -/
theorem handleServerRequest_approval_policy_witness :
    ∃ d e, handleServerRequest "item/commandExecution/requestApproval" ⟨false, true⟩ =
        ServerRequestReply.approval d ["approval_request", "approval_response"] e ∧
      (d = "accept" ↔ ((true : Bool) = true ∧ (false : Bool) = false)) ∧
      (d = "accept" ∨ d = "decline") ∧
      (e = true ↔ d = "decline") :=
  handleServerRequest_approval_policy ⟨false, true⟩
    "item/commandExecution/requestApproval" (Or.inl rfl)

/-- C4: the spark fallback fires if and only if the session model equals
`gpt-5.3-codex-spark` and the error message satisfies the spark access-error
predicate; when it fires, the session model is persisted as `gpt-5.3-codex`,
one `modelFallback` event carrying `{fromModel, toModel, toEffort, operation,
reason}` is emitted, the request is retried exactly once (two RPC calls,
whose second result is final), and `spark_return_target` is left unchanged;
when it does not fire, the error propagates after a single call with no event
and no settings change. -/
theorem sparkFallback_fires_iff_and_retries_once {α : Type} (st : SessionSettings)
    (op : String) :
    (∀ (v : α) (r2 : Except String α),
        requestWithSparkModelFallback st (Except.ok v) r2 op =
          ⟨Except.ok v, st, 1, []⟩) ∧
    (∀ (e : String) (r2 : Except String α),
        (st.model = SPARK_CODEX_MODEL ∧ isSparkModelAccessError e = true →
          requestWithSparkModelFallback st (Except.error e) r2 op =
            ⟨r2, storeSetModel st STANDARD_CODEX_MODEL, 2,
              [{ fromModel := SPARK_CODEX_MODEL
                 toModel := STANDARD_CODEX_MODEL
                 toEffort := getReasoningEffortForModel
                   (storeSetModel st STANDARD_CODEX_MODEL) STANDARD_CODEX_MODEL
                 operation := op
                 reason := e }]⟩ ∧
          (storeSetModel st STANDARD_CODEX_MODEL).sparkReturnTarget =
            st.sparkReturnTarget ∧
          (storeSetModel st STANDARD_CODEX_MODEL).model = STANDARD_CODEX_MODEL) ∧
        (¬ (st.model = SPARK_CODEX_MODEL ∧ isSparkModelAccessError e = true) →
          requestWithSparkModelFallback st (Except.error e) r2 op =
            ⟨Except.error e, st, 1, []⟩)) := by
  have hstep : ∀ (e : String) (r2 : Except String α),
      requestWithSparkModelFallback st (Except.error e) r2 op =
        (match maybeFallbackFromSparkModel st e op with
          | (true, st1, evs) =>
            ({ outcome := r2, settings := st1, rpcCalls := 2, events := evs } :
              SparkFallbackRun α)
          | (false, _, _) => ⟨Except.error e, st, 1, []⟩) :=
    fun _ _ => rfl
  refine ⟨fun v r2 => rfl, fun e r2 => ⟨?_, ?_⟩⟩
  · rintro ⟨h1, h2⟩
    have hfb : maybeFallbackFromSparkModel st e op =
        (true, storeSetModel st STANDARD_CODEX_MODEL,
          [{ fromModel := SPARK_CODEX_MODEL
             toModel := STANDARD_CODEX_MODEL
             toEffort := getReasoningEffortForModel
               (storeSetModel st STANDARD_CODEX_MODEL) STANDARD_CODEX_MODEL
             operation := op
             reason := e }]) := by
      unfold maybeFallbackFromSparkModel
      rw [if_neg (not_not_intro h1), if_neg (not_not_intro h2)]
    refine ⟨?_, rfl, rfl⟩
    rw [hstep e r2, hfb]
  · intro h
    have hfb : (maybeFallbackFromSparkModel st e op).1 = false := by
      unfold maybeFallbackFromSparkModel
      by_cases h1 : st.model = SPARK_CODEX_MODEL
      · by_cases h2 : isSparkModelAccessError e = true
        · exact absurd ⟨h1, h2⟩ h
        · rw [if_neg (not_not_intro h1), if_pos h2]
      · rw [if_pos h1]
    rw [hstep e r2]
    rcases hm : maybeFallbackFromSparkModel st e op with ⟨b, st1, evs⟩
    rw [hm] at hfb
    cases b
    · rfl
    · exact Bool.noConfusion hfb

/-- C4 (witness): seed scenario 4, a spark session hitting the
`not available for this account` error on `turn/start`: the model falls back
to the standard model, the event is emitted, and the retry result is
returned. -/
theorem sparkFallback_fires_iff_and_retries_once_witness :
    requestWithSparkModelFallback (α := String)
        ⟨SPARK_CODEX_MODEL, [], none⟩ (Except.error sparkErrorMessageExample)
        (Except.ok "retried") "turn/start" =
      ⟨Except.ok "retried",
        storeSetModel ⟨SPARK_CODEX_MODEL, [], none⟩ STANDARD_CODEX_MODEL, 2,
        [{ fromModel := SPARK_CODEX_MODEL
           toModel := STANDARD_CODEX_MODEL
           toEffort := getReasoningEffortForModel
             (storeSetModel ⟨SPARK_CODEX_MODEL, [], none⟩ STANDARD_CODEX_MODEL)
             STANDARD_CODEX_MODEL
           operation := "turn/start"
           reason := sparkErrorMessageExample }]⟩ ∧
    (storeSetModel (⟨SPARK_CODEX_MODEL, [], none⟩ : SessionSettings)
        STANDARD_CODEX_MODEL).sparkReturnTarget =
      (⟨SPARK_CODEX_MODEL, [], none⟩ : SessionSettings).sparkReturnTarget ∧
    (storeSetModel (⟨SPARK_CODEX_MODEL, [], none⟩ : SessionSettings)
        STANDARD_CODEX_MODEL).model = STANDARD_CODEX_MODEL :=
  ((sparkFallback_fires_iff_and_retries_once (α := String)
      ⟨SPARK_CODEX_MODEL, [], none⟩ "turn/start").2
    sparkErrorMessageExample (Except.ok "retried")).1 ⟨rfl, by decide⟩

/-- Two rows of a table with pairwise-distinct dedupe keys that share one
dedupe key are the same row. -/
theorem eq_of_mem_of_dedupeKey_eq {t : List NotificationRow}
    (h : dedupeKeysUnique t) {a b : NotificationRow}
    (ha : a ∈ t) (hb : b ∈ t) (hk : a.dedupe_key = b.dedupe_key) : a = b := by
  induction t with
  | nil => cases ha
  | cons x xs ih =>
    rw [dedupeKeysUnique, List.pairwise_cons] at h
    rcases List.mem_cons.mp ha with rfl | ha'
    · rcases List.mem_cons.mp hb with rfl | hb'
      · rfl
      · exact absurd hk (h.1 b hb')
    · rcases List.mem_cons.mp hb with rfl | hb'
      · exact absurd hk.symm (h.1 a ha')
      · exact ih h.2 ha' hb'

/-- `bumpDuplicateRow` keeps `dedupe_key` unchanged. -/
theorem bumpDuplicateRow_key (existingId : String) (now : Nat)
    (r : NotificationRow) :
    (bumpDuplicateRow existingId now r).dedupe_key = r.dedupe_key := by
  unfold bumpDuplicateRow
  by_cases h : (r.id == existingId) = true
  · rw [if_pos h]
  · rw [if_neg h]

/-- `bumpDuplicateRow` keeps `id` unchanged. -/
theorem bumpDuplicateRow_id (existingId : String) (now : Nat)
    (r : NotificationRow) :
    (bumpDuplicateRow existingId now r).id = r.id := by
  unfold bumpDuplicateRow
  by_cases h : (r.id == existingId) = true
  · rw [if_pos h]
  · rw [if_neg h]

/-- C2: `dedupe_key` stays unique under `appendNotification`.  With a table
whose dedupe keys are pairwise distinct and a freshly generated event id:
re-ingesting an existing dedupe key inserts no row (the table keeps its
length), increments that row duplicate count, refreshes its last-seen
timestamp, and returns the stored row id, leaving all other rows untouched;
an unseen dedupe key appends exactly the one new row; in both cases the
dedupe keys stay pairwise distinct. -/
theorem appendNotification_dedupe_invariant (t : List NotificationRow)
    (e : NotificationEvent) (now : Nat)
    (hkeys : dedupeKeysUnique t) (hid : ∀ r ∈ t, r.id ≠ e.id) :
    (∀ r0 ∈ t, r0.dedupe_key = e.dedupeKey →
      (appendNotification t e now).2.inserted = false ∧
      (appendNotification t e now).2.id = r0.id ∧
      (appendNotification t e now).1.length = t.length ∧
      ({ r0 with duplicate_count := r0.duplicate_count + 1, last_seen_at_ms := now } :
          NotificationRow) ∈ (appendNotification t e now).1 ∧
      (∀ r1 ∈ (appendNotification t e now).1, r1.id ≠ r0.id → r1 ∈ t)) ∧
    ((∀ r0 ∈ t, r0.dedupe_key ≠ e.dedupeKey) →
      appendNotification t e now = (t ++ [rowOfEvent e], ⟨true, e.id, none⟩)) ∧
    dedupeKeysUnique (appendNotification t e now).1 := by
  refine ⟨?_, ?_, ?_⟩
  · intro r0 hr0 hkey
    have hany : (t.any fun r => r.id == e.id || r.dedupe_key == e.dedupeKey) = true := by
      refine List.any_eq_true.mpr ⟨r0, hr0, ?_⟩
      simp [hkey]
    have hf : t.find? (fun r => r.dedupe_key == e.dedupeKey) = some r0 := by
      rcases hf' : t.find? (fun r => r.dedupe_key == e.dedupeKey) with _ | r'
      · rw [List.find?_eq_none] at hf'
        exact absurd (by simp [hkey]) (hf' r0 hr0)
      · have hmem := List.mem_of_find?_eq_some hf'
        have hkey' : r'.dedupe_key = e.dedupeKey := by
          simpa using List.find?_some hf'
        have : r' = r0 := eq_of_mem_of_dedupeKey_eq hkeys hmem hr0 (hkey'.trans hkey.symm)
        rw [← this]
        exact hf'
    have happ : appendNotification t e now =
        (t.map (bumpDuplicateRow r0.id now), ⟨false, r0.id, some r0.id⟩) := by
      unfold appendNotification
      rw [if_pos hany, hf]
    rw [happ]
    refine ⟨rfl, rfl, List.length_map _ _, ?_, ?_⟩
    · have hmem := List.mem_map_of_mem (bumpDuplicateRow r0.id now) hr0
      have heq : bumpDuplicateRow r0.id now r0 =
          { r0 with duplicate_count := r0.duplicate_count + 1, last_seen_at_ms := now } := by
        unfold bumpDuplicateRow
        rw [if_pos (by simp)]
      rw [heq] at hmem
      exact hmem
    · intro r1 hr1 hne
      rcases List.mem_map.mp hr1 with ⟨x, hx, hfx⟩
      by_cases hxid : (x.id == r0.id) = true
      · exfalso
        apply hne
        rw [← hfx]
        rw [bumpDuplicateRow_id]
        exact eq_of_beq hxid
      · have : bumpDuplicateRow r0.id now x = x := by
          unfold bumpDuplicateRow
          rw [if_neg hxid]
        rw [← hfx, this]
        exact hx
  · intro hnone
    have hany : (t.any fun r => r.id == e.id || r.dedupe_key == e.dedupeKey) = false := by
      rw [List.any_eq_false]
      intro r hr
      simp [hid r hr, hnone r hr]
    unfold appendNotification
    rw [if_neg (by simp [hany])]
  · unfold appendNotification
    by_cases hany : (t.any fun r => r.id == e.id || r.dedupe_key == e.dedupeKey) = true
    · rw [if_pos hany]
      rcases hf : t.find? (fun r => r.dedupe_key == e.dedupeKey) with _ | ex
      · rw [hf]
        exact hkeys
      · rw [hf]
        show List.Pairwise _ (t.map (bumpDuplicateRow ex.id now))
        refine List.Pairwise.map _ ?_ hkeys
        intro a b hab
        show (bumpDuplicateRow ex.id now a).dedupe_key ≠
          (bumpDuplicateRow ex.id now b).dedupe_key
        rw [bumpDuplicateRow_key, bumpDuplicateRow_key]
        exact hab
    · rw [if_neg hany]
      show List.Pairwise _ (t ++ [rowOfEvent e])
      rw [List.pairwise_append]
      refine ⟨hkeys, by simp, ?_⟩
      intro a ha b hb
      rw [List.mem_singleton] at hb
      subst hb
      have hnot : ¬ ((a.id == e.id || a.dedupe_key == e.dedupeKey) = true) := by
        rw [List.any_eq_true] at hany
        exact fun hcontra => hany ⟨a, ha, hcontra⟩
      simp only [Bool.or_eq_true, beq_iff_eq, not_or] at hnot
      exact hnot.2

/-- C2 (witness): re-delivering the same webhook event (same dedupe key,
fresh id) to a one-row table: no insert, duplicate count bumped, last-seen
refreshed, the stored id returned. -/
theorem appendNotification_dedupe_invariant_witness :
    (appendNotification [rowOfEvent exampleEventA] exampleEventB 300).2.inserted = false ∧
    (appendNotification [rowOfEvent exampleEventA] exampleEventB 300).2.id =
      (rowOfEvent exampleEventA).id ∧
    (appendNotification [rowOfEvent exampleEventA] exampleEventB 300).1.length =
      ([rowOfEvent exampleEventA] : List NotificationRow).length ∧
    ({ rowOfEvent exampleEventA with
        duplicate_count := (rowOfEvent exampleEventA).duplicate_count + 1
        last_seen_at_ms := 300 } : NotificationRow) ∈
      (appendNotification [rowOfEvent exampleEventA] exampleEventB 300).1 ∧
    (∀ r1 ∈ (appendNotification [rowOfEvent exampleEventA] exampleEventB 300).1,
      r1.id ≠ (rowOfEvent exampleEventA).id → r1 ∈ [rowOfEvent exampleEventA]) :=
  (appendNotification_dedupe_invariant [rowOfEvent exampleEventA] exampleEventB 300
      (by simp [dedupeKeysUnique]) (by decide)).1
    (rowOfEvent exampleEventA) (by simp) (by decide)

/-! ### Ordering lemmas for the claim query -/

theorem rowKeyLt_irrefl (a : NotificationRow) : rowKeyLt a a = false := by
  simp [rowKeyLt]

theorem rowKeyLt_trans {a b c : NotificationRow} (h1 : rowKeyLt a b = true)
    (h2 : rowKeyLt b c = true) : rowKeyLt a c = true := by
  simp only [rowKeyLt, Bool.or_eq_true, Bool.and_eq_true, beq_iff_eq,
    decide_eq_true_eq] at *
  rcases h1 with h1 | ⟨h1e, h1s⟩ <;> rcases h2 with h2 | ⟨h2e, h2s⟩
  · exact Or.inl (lt_trans h1 h2)
  · exact Or.inl (h2e ▸ h1)
  · exact Or.inl (h1e ▸ h2)
  · exact Or.inr ⟨h1e.trans h2e, lt_trans h1s h2s⟩

theorem rowKeyLt_asymm {a b : NotificationRow} (h : rowKeyLt a b = true) :
    rowKeyLt b a = false := by
  by_contra h2
  rw [Bool.not_eq_false] at h2
  have := rowKeyLt_trans h h2
  rw [rowKeyLt_irrefl] at this
  exact Bool.noConfusion this

theorem selectMinRow_not_lt_acc {b r : NotificationRow} {rs : List NotificationRow}
    (hbr : rowKeyLt b r = false) : rowKeyLt b (selectMinRow r rs) = false := by
  induction rs generalizing r with
  | nil => exact hbr
  | cons y ys ih =>
    simp only [selectMinRow, List.foldl_cons]
    apply ih
    by_cases hy : rowKeyLt y r = true
    · rw [if_pos hy]
      by_contra hby
      rw [Bool.not_eq_false] at hby
      have := rowKeyLt_trans hby hy
      rw [this] at hbr
      exact Bool.noConfusion hbr
    · rw [if_neg hy]
      exact hbr

theorem selectMinRow_mem (r : NotificationRow) (rs : List NotificationRow) :
    selectMinRow r rs ∈ r :: rs := by
  induction rs generalizing r with
  | nil => simp [selectMinRow]
  | cons y ys ih =>
    simp only [selectMinRow, List.foldl_cons]
    have ih' := ih (if rowKeyLt y r then y else r)
    simp only [selectMinRow] at ih'
    rcases List.mem_cons.mp ih' with h | h
    · rw [h]
      by_cases hy : rowKeyLt y r = true
      · rw [if_pos hy]
        exact List.mem_cons_of_mem _ (List.mem_cons_self _ _)
      · rw [if_neg hy]
        exact List.mem_cons_self _ _
    · exact List.mem_cons_of_mem _ (List.mem_cons_of_mem _ h)

theorem selectMinRow_min (r : NotificationRow) (rs : List NotificationRow) :
    ∀ x ∈ r :: rs, rowKeyLt x (selectMinRow r rs) = false := by
  induction rs generalizing r with
  | nil =>
    intro x hx
    rw [List.mem_singleton] at hx
    subst hx
    exact rowKeyLt_irrefl x
  | cons y ys ih =>
    intro x hx
    simp only [selectMinRow, List.foldl_cons]
    have step : ∀ z, rowKeyLt z (if rowKeyLt y r then y else r) = false →
        rowKeyLt z (selectMinRow (if rowKeyLt y r then y else r) ys) = false :=
      fun z hz => selectMinRow_not_lt_acc hz
    rcases List.mem_cons.mp hx with rfl | hx'
    · apply step
      by_cases hy : rowKeyLt y x = true
      · rw [if_pos hy]
        exact rowKeyLt_asymm hy
      · rw [if_neg hy]
        exact rowKeyLt_irrefl x
    · rcases List.mem_cons.mp hx' with rfl | hx''
      · apply step
        by_cases hy : rowKeyLt x r = true
        · rw [if_pos hy]
          exact rowKeyLt_irrefl x
        · rw [if_neg hy]
          exact Bool.eq_false_iff.mpr hy
      · exact ih _ x (List.mem_cons_of_mem _ hx'')

/-- What `claimCandidate` guarantees: the candidate is a stored eligible row
that no other eligible row strictly precedes in
`(received_at_ms ASC, id ASC)` order. -/
theorem claimCandidate_spec {t : List NotificationRow} {c : NotificationRow}
    (h : claimCandidate t = some c) :
    c ∈ t ∧ eligibleForClaim c = true ∧
      ∀ x ∈ t, eligibleForClaim x = true → rowKeyLt x c = false := by
  unfold claimCandidate at h
  rcases hfil : t.filter eligibleForClaim with _ | ⟨r, rs⟩
  · rw [hfil] at h
    exact Option.noConfusion h
  · rw [hfil] at h
    have hc : selectMinRow r rs = c := Option.some_inj.mp h
    subst hc
    have hmem : selectMinRow r rs ∈ t.filter eligibleForClaim := by
      rw [hfil]
      exact selectMinRow_mem r rs
    have hmem' := List.mem_filter.mp hmem
    refine ⟨hmem'.1, hmem'.2, ?_⟩
    intro x hx helig
    have hxf : x ∈ t.filter eligibleForClaim := List.mem_filter.mpr ⟨hx, helig⟩
    rw [hfil] at hxf
    exact selectMinRow_min r rs x hxf

theorem claimUpdateRow_id (candidateId : String) (now : Nat) (r : NotificationRow) :
    (claimUpdateRow candidateId now r).id = r.id := by
  unfold claimUpdateRow
  by_cases h : (r.id == candidateId && eligibleForClaim r) = true
  · rw [if_pos h]
  · rw [if_neg h]

theorem claimUpdateRow_of_ne (candidateId : String) (now : Nat)
    (r : NotificationRow) (h : r.id ≠ candidateId) :
    claimUpdateRow candidateId now r = r := by
  unfold claimUpdateRow
  rw [if_neg]
  simp [h]

/-- With pairwise-distinct ids, looking the candidate id up in the updated
table returns the updated candidate row. -/
theorem getNotificationById_map_claimUpdate {t : List NotificationRow}
    (hids : notificationIdsUnique t) {c : NotificationRow} (hc : c ∈ t) (now : Nat) :
    getNotificationById (t.map (claimUpdateRow c.id now)) c.id =
      some (claimUpdateRow c.id now c) := by
  induction t with
  | nil => cases hc
  | cons x xs ih =>
    rw [notificationIdsUnique, List.pairwise_cons] at hids
    rcases List.mem_cons.mp hc with rfl | hc'
    · show List.find? _ (claimUpdateRow c.id now c :: _) = _
      rw [List.find?_cons_of_pos]
      simp [claimUpdateRow_id]
    · show List.find? _ (claimUpdateRow c.id now x :: _) = _
      rw [List.find?_cons_of_neg]
      · exact ih hids.2 hc'
      · simp [claimUpdateRow_id]
        exact hids.1 c hc'

/-- C6: a poll pass never starts a notification turn while the session has an
active turn: `maybeProcessQueuedNotification` is a no-op when
`active_turn_id` is set (or notification turns are disabled), and otherwise
it claims at most one notification — an eligible (`received` or `queued`)
stored row that no other eligible row precedes in
`(received_at_ms ASC, id ASC)` order — transitions exactly that row to
`processing`, and hands it to the decision turn. -/
theorem maybeProcessQueuedNotification_spec (st : PollState) (now : Nat)
    (hids : notificationIdsUnique st.notifications) :
    (st.activeTurnId.isSome = true → maybeProcessQueuedNotification st now = (st, none)) ∧
    (st.notificationTurnsEnabled = false →
      maybeProcessQueuedNotification st now = (st, none)) ∧
    (∀ q, (maybeProcessQueuedNotification st now).2 = some q →
      st.activeTurnId = none ∧ st.notificationTurnsEnabled = true ∧
      ∃ c ∈ st.notifications, eligibleForClaim c = true ∧
        (∀ x ∈ st.notifications, eligibleForClaim x = true → rowKeyLt x c = false) ∧
        q = { c with status := "processing", processed_at_ms := some now } ∧
        (maybeProcessQueuedNotification st now).1.notifications =
          st.notifications.map (claimUpdateRow c.id now) ∧
        (∀ r, r.id ≠ c.id → claimUpdateRow c.id now r = r)) := by
  refine ⟨?_, ?_, ?_⟩
  · intro h
    by_cases hen : st.notificationTurnsEnabled = true
    · unfold maybeProcessQueuedNotification
      rw [if_neg (not_not_intro hen), if_pos h]
    · unfold maybeProcessQueuedNotification
      rw [if_pos hen]
  · intro h
    unfold maybeProcessQueuedNotification
    rw [if_pos (by simp [h])]
  · intro q hq
    by_cases hen : st.notificationTurnsEnabled = true
    · by_cases hact : st.activeTurnId.isSome = true
      · exfalso
        unfold maybeProcessQueuedNotification at hq
        rw [if_neg (not_not_intro hen), if_pos hact] at hq
        exact Option.noConfusion hq
      · have hnone : st.activeTurnId = none := Option.not_isSome_iff_eq_none.mp hact
        rcases hcand : claimCandidate st.notifications with _ | c
        · exfalso
          have hrun0 : maybeProcessQueuedNotification st now = (st, none) := by
            unfold maybeProcessQueuedNotification
            rw [if_neg (not_not_intro hen), if_neg hact]
            have hclaim : claimNextQueuedNotification st.notifications now =
                (none, st.notifications) := by
              unfold claimNextQueuedNotification
              rw [hcand]
            rw [hclaim]
          rw [hrun0] at hq
          exact Option.noConfusion hq
        · have hspec := claimCandidate_spec hcand
          have hget := getNotificationById_map_claimUpdate hids hspec.1 now
          have hrun : maybeProcessQueuedNotification st now =
              ({ st with notifications := st.notifications.map (claimUpdateRow c.id now) },
               some (claimUpdateRow c.id now c)) := by
            unfold maybeProcessQueuedNotification
            rw [if_neg (not_not_intro hen), if_neg hact]
            have hclaim : claimNextQueuedNotification st.notifications now =
                (some (claimUpdateRow c.id now c),
                 st.notifications.map (claimUpdateRow c.id now)) := by
              unfold claimNextQueuedNotification
              rw [hcand]
              show (getNotificationById (st.notifications.map (claimUpdateRow c.id now)) c.id,
                st.notifications.map (claimUpdateRow c.id now)) = _
              rw [hget]
            rw [hclaim]
          rw [hrun] at hq
          have hqc : claimUpdateRow c.id now c = q := by
            simpa using hq
          refine ⟨hnone, hen, c, hspec.1, hspec.2.1, hspec.2.2, ?_, ?_, ?_⟩
          · rw [← hqc]
            unfold claimUpdateRow
            rw [if_pos (by simp [hspec.2.1])]
          · rw [hrun]
          · intro r hr
            exact claimUpdateRow_of_ne _ _ _ hr
    · exfalso
      unfold maybeProcessQueuedNotification at hq
      rw [if_pos hen] at hq
      exact Option.noConfusion hq

/-- C6 (witness): with no active turn and one queued row, exactly that row is
claimed, handed over, and marked `processing`. -/
theorem maybeProcessQueuedNotification_spec_witness :
    (maybeProcessQueuedNotification ⟨true, some "turn_9", [rowOfEvent exampleEventA]⟩ 400 =
      (⟨true, some "turn_9", [rowOfEvent exampleEventA]⟩, none)) ∧
    ∃ c ∈ [rowOfEvent exampleEventA], eligibleForClaim c = true ∧
      (∀ x ∈ [rowOfEvent exampleEventA], eligibleForClaim x = true → rowKeyLt x c = false) ∧
      ({ c with status := "processing", processed_at_ms := some 400 } : NotificationRow) =
        { c with status := "processing", processed_at_ms := some 400 } := by
  constructor
  · exact (maybeProcessQueuedNotification_spec
      ⟨true, some "turn_9", [rowOfEvent exampleEventA]⟩ 400 (by simp [notificationIdsUnique])).1
      rfl
  · have h := (maybeProcessQueuedNotification_spec
      ⟨true, none, [rowOfEvent exampleEventA]⟩ 400 (by simp [notificationIdsUnique])).2.2
      ({ rowOfEvent exampleEventA with
          status := "processing", processed_at_ms := some 400 }) (by decide)
    rcases h with ⟨-, -, c, hc, helig, hmin, -, -, -⟩
    exact ⟨c, hc, helig, hmin, rfl⟩

/-- The delivery field validates to exactly the enum strings. -/
theorem parseDeliveryField_eq_some (o : Option Json) (d : String) :
    parseDeliveryField o = some d ↔
      (o = some (Json.str d) ∧ (d = "send" ∨ d = "suppress")) := by
  cases o with
  | none => simp [parseDeliveryField]
  | some j =>
    cases j with
    | str s =>
      simp only [parseDeliveryField]
      by_cases hs : (s == "send" || s == "suppress") = true
      · have hs' : s = "send" ∨ s = "suppress" := by simpa using hs
        rw [if_pos hs]
        constructor
        · intro h
          have : s = d := Option.some_inj.mp h
          subst this
          exact ⟨rfl, hs'⟩
        · rintro ⟨h1, -⟩
          injection h1 with h1'
          injection h1' with h1''
          rw [h1'']
      · rw [if_neg hs]
        have hs' : ¬ (s = "send" ∨ s = "suppress") := by simpa using hs
        constructor
        · intro h
          exact Option.noConfusion h
        · rintro ⟨h1, h2⟩
          injection h1 with h1'
          injection h1' with h1''
          subst h1''
          exact absurd h2 hs'
    | null => simp [parseDeliveryField]
    | bool b => simp [parseDeliveryField]
    | num s => simp [parseDeliveryField]
    | arr a => simp [parseDeliveryField]
    | obj o => simp [parseDeliveryField]

/-- The optional string fields validate to absence or a string, and reject
everything else (`null` included). -/
theorem parseOptStringField_eq_some (o : Option Json) (m : Option String) :
    parseOptStringField o = some m ↔
      ((o = none ∧ m = none) ∨ ∃ s, o = some (Json.str s) ∧ m = some s) := by
  cases o with
  | none => simp [parseOptStringField, eq_comm]
  | some j =>
    cases j with
    | str s => simp [parseOptStringField, eq_comm]
    | null => simp [parseOptStringField]
    | bool b => simp [parseOptStringField]
    | num n => simp [parseOptStringField]
    | arr a => simp [parseOptStringField]
    | obj o => simp [parseOptStringField]

/-- C1: the decision parser accepts exactly the JSON values that are objects
with no keys outside `delivery`/`message`/`reasonCode`, whose `delivery` is
the string `send` or `suppress`, and whose `message` and `reasonCode`, when
present, are strings — absence is allowed, `null` is rejected. -/
theorem notificationDecisionSafeParse_characterization (j : Json) :
    (notificationDecisionSafeParse j).isSome = true ↔ decisionEnvelopeAccepts j := by
  cases j with
  | null => simp [notificationDecisionSafeParse, decisionEnvelopeAccepts]
  | bool b => simp [notificationDecisionSafeParse, decisionEnvelopeAccepts]
  | num s => simp [notificationDecisionSafeParse, decisionEnvelopeAccepts]
  | str s => simp [notificationDecisionSafeParse, decisionEnvelopeAccepts]
  | arr a => simp [notificationDecisionSafeParse, decisionEnvelopeAccepts]
  | obj l =>
    simp only [notificationDecisionSafeParse]
    unfold decisionEnvelopeAccepts
    by_cases hall : (l.all fun p =>
        p.1 == "delivery" || p.1 == "message" || p.1 == "reasonCode") = true
    · rw [if_pos hall]
      have hkeys : ∀ p ∈ l, p.1 = "delivery" ∨ p.1 = "message" ∨ p.1 = "reasonCode" := by
        intro p hp
        have := List.all_eq_true.mp hall p hp
        simp only [Bool.or_eq_true, beq_iff_eq] at this
        tauto
      constructor
      · intro h
        rcases hPD : parseDeliveryField (lookupKey l "delivery") with _ | d
        · rw [hPD] at h
          simp at h
        · rcases hPM : parseOptStringField (lookupKey l "message") with _ | m
          · rw [hPD, hPM] at h
            simp at h
          · rcases hPR : parseOptStringField (lookupKey l "reasonCode") with _ | r
            · rw [hPD, hPM, hPR] at h
              simp at h
            · have h1 := (parseDeliveryField_eq_some _ d).mp hPD
              have h2 := (parseOptStringField_eq_some _ m).mp hPM
              have h3 := (parseOptStringField_eq_some _ r).mp hPR
              refine ⟨l, rfl, hkeys, ?_, ?_, ?_⟩
              · rcases h1.2 with hh | hh
                · exact Or.inl (hh ▸ h1.1)
                · exact Or.inr (hh ▸ h1.1)
              · rcases h2 with ⟨h2a, -⟩ | ⟨s, h2a, -⟩
                · exact Or.inl h2a
                · exact Or.inr ⟨s, h2a⟩
              · rcases h3 with ⟨h3a, -⟩ | ⟨s, h3a, -⟩
                · exact Or.inl h3a
                · exact Or.inr ⟨s, h3a⟩
      · rintro ⟨l', heq, hkeys', hdel, hmsg, hrc⟩
        obtain rfl : l = l' := by
          injection heq
        have h1 : ∃ d, parseDeliveryField (lookupKey l "delivery") = some d := by
          rcases hdel with hD | hD
          · exact ⟨"send", (parseDeliveryField_eq_some _ _).mpr ⟨hD, Or.inl rfl⟩⟩
          · exact ⟨"suppress", (parseDeliveryField_eq_some _ _).mpr ⟨hD, Or.inr rfl⟩⟩
        have h2 : ∃ m, parseOptStringField (lookupKey l "message") = some m := by
          rcases hmsg with hM | ⟨s, hM⟩
          · exact ⟨none, (parseOptStringField_eq_some _ _).mpr (Or.inl ⟨hM, rfl⟩)⟩
          · exact ⟨some s, (parseOptStringField_eq_some _ _).mpr (Or.inr ⟨s, hM, rfl⟩)⟩
        have h3 : ∃ r, parseOptStringField (lookupKey l "reasonCode") = some r := by
          rcases hrc with hR | ⟨s, hR⟩
          · exact ⟨none, (parseOptStringField_eq_some _ _).mpr (Or.inl ⟨hR, rfl⟩)⟩
          · exact ⟨some s, (parseOptStringField_eq_some _ _).mpr (Or.inr ⟨s, hR, rfl⟩)⟩
        rcases h1 with ⟨d, hPD⟩
        rcases h2 with ⟨m, hPM⟩
        rcases h3 with ⟨r, hPR⟩
        rw [hPD, hPM, hPR]
        simp
    · rw [if_neg hall]
      simp only [Option.isSome_none, Bool.false_eq_true, false_iff]
      rintro ⟨l', heq, hkeys', hdel, hmsg, hrc⟩
      obtain rfl : l = l' := by
        injection heq
      apply hall
      rw [List.all_eq_true]
      intro p hp
      rcases hkeys' p hp with h | h | h <;> simp [h]

/-- C1 (witness): the characterization instantiated at the envelope
`{"delivery":"suppress","reasonCode":"deploy_noise"}` (no `message` key),
which the parser accepts. -/
theorem notificationDecisionSafeParse_characterization_witness :
    decisionEnvelopeAccepts
      (Json.obj [("delivery", Json.str "suppress"), ("reasonCode", Json.str "deploy_noise")]) :=
  (notificationDecisionSafeParse_characterization
    (Json.obj [("delivery", Json.str "suppress"), ("reasonCode", Json.str "deploy_noise")])).mp
    (by decide)

/-- C3: when a notification-mode decision turn completes with unparsable
assistant text, the decision turn is restarted exactly once — attempt 1
retries as attempt 2 (provided the notification row still exists), and from
attempt 2 on the bridge dispatches the raw assistant text when present,
otherwise the fixed message
`Notification received, but decision output was invalid.`, and marks the
notification row `failed`. -/
theorem handleNotificationTurnCompleted_invalid_retry_once
    (table : List NotificationRow) (sid : Option String) (turnId errMsg : String)
    (mode : String) (att : Option Nat) (latest : Option String) (now : Nat)
    (nid : String)
    (hparse : parseNotificationDecision (jsTrim (latest.getD "")) = none) :
    (att.getD 1 = 1 → ∀ n, getNotificationById table nid = some n →
      handleNotificationTurnCompleted table sid turnId "completed" errMsg
          ⟨mode, some nid, att, latest⟩ now =
        (NotificationTurnOutcome.retry n 2, table)) ∧
    (2 ≤ att.getD 1 →
      (handleNotificationTurnCompleted table sid turnId "completed" errMsg
          ⟨mode, some nid, att, latest⟩ now).1 =
        NotificationTurnOutcome.fallbackDispatch
          (if jsTrim (latest.getD "") ≠ "" then jsTrim (latest.getD "")
           else "Notification received, but decision output was invalid.") ∧
      (∀ r ∈ (handleNotificationTurnCompleted table sid turnId "completed" errMsg
          ⟨mode, some nid, att, latest⟩ now).2,
        r.id = nid → r.status = "failed")) := by
  constructor
  · intro hatt n hn
    simp [handleNotificationTurnCompleted, hparse, hatt, hn]
  · intro hatt
    have h2 : ¬ (att.getD 1 < 2) := by omega
    have hred : handleNotificationTurnCompleted table sid turnId "completed" errMsg
        ⟨mode, some nid, att, latest⟩ now =
        (NotificationTurnOutcome.fallbackDispatch
          (if jsTrim (latest.getD "") ≠ "" then jsTrim (latest.getD "")
           else "Notification received, but decision output was invalid."),
         recordNotificationFailure table nid
           "notification decision invalid after retry; raw fallback sent"
           sid (some turnId) now) := by
      simp only [handleNotificationTurnCompleted]
      simp [hparse, h2]
    refine ⟨by rw [hred], ?_⟩
    intro r hr hid
    rw [hred] at hr
    unfold recordNotificationFailure at hr
    rcases List.mem_map.mp hr with ⟨x, hx, hfx⟩
    by_cases hxid : (x.id == nid) = true
    · subst hfx
      simp [hxid]
    · exfalso
      subst hfx
      simp only [hxid, Bool.false_eq_true, if_false] at hid
      exact hxid (by simp [hid])

/-- C3 (witness): seed scenario 6, attempt 1 with assistant text `not json`:
the same notification is retried as attempt 2 with the table untouched. -/
theorem handleNotificationTurnCompleted_invalid_retry_once_witness :
    handleNotificationTurnCompleted [exampleWebhookRow] none "turn_n1" "completed" ""
        ⟨"notification", some "nfy_1", some 1, some "not json"⟩ 2000 =
      (NotificationTurnOutcome.retry exampleWebhookRow 2, [exampleWebhookRow]) :=
  (handleNotificationTurnCompleted_invalid_retry_once [exampleWebhookRow] none
      "turn_n1" "" "notification" (some 1) (some "not json") 2000 "nfy_1"
      (by decide)).1 rfl exampleWebhookRow (by decide)

theorem string_eq_empty_of_data_eq_nil {s : String} (h : s.data = []) : s = "" := by
  cases s with
  | mk d =>
    have hd : d = [] := h
    subst hd
    rfl

/-- `isAuthorized` accepts exactly the requests allowed by the precedence
rule: a usable `Authorization` token must equal the secret, and
`X-Bridge-Secret` is consulted only when no usable token exists. -/
theorem isAuthorized_iff (req : WebhookRequest) (secret : String) :
    isAuthorized req secret = true ↔ webhookSecretAccepted req secret := by
  unfold webhookSecretAccepted
  rcases hA : headerValue req.authorization with _ | h
  · rcases hX : headerValue req.xBridgeSecret with _ | s
    · constructor
      · intro hb
        exact absurd hb (by simp [isAuthorized, hA, hX])
      · rintro (⟨h', hh', -, -⟩ | ⟨-, hxb⟩)
        · exact Option.noConfusion hh'
        · exact Option.noConfusion hxb
    · constructor
      · intro hb
        have hs : s = secret := by simpa [isAuthorized, hA, hX] using hb
        exact Or.inr ⟨fun h' hh' => Option.noConfusion hh', by rw [hs]⟩
      · rintro (⟨h', hh', -, -⟩ | ⟨-, hxb⟩)
        · exact Option.noConfusion hh'
        · have hs : s = secret := Option.some_inj.mp hxb
          simp [isAuthorized, hA, hX, hs]
  · by_cases ht : 0 < (tokenOfAuthHeader h).length
    · have hne : tokenOfAuthHeader h ≠ "" := by
        intro hcontra
        rw [hcontra] at ht
        simp at ht
      constructor
      · intro hb
        have hb' : tokenOfAuthHeader h = secret := by
          simpa [isAuthorized, hA, ht] using hb
        exact Or.inl ⟨h, rfl, hne, hb'⟩
      · rintro (⟨h', hh', hne', hsec⟩ | ⟨hall, hxb⟩)
        · obtain rfl : h = h' := Option.some_inj.mp hh'
          have htok : (tokenOfAuthHeader h == secret) = true := by simp [hsec]
          simp [isAuthorized, hA, ht, htok]
        · exact absurd (hall h rfl) hne
    · have hempty : tokenOfAuthHeader h = "" := by
        have hlen0 : (tokenOfAuthHeader h).length = 0 := Nat.eq_zero_of_not_pos ht
        have hlen : (tokenOfAuthHeader h).data.length = 0 := hlen0
        exact string_eq_empty_of_data_eq_nil (List.length_eq_zero.mp hlen)
      constructor
      · intro hb
        rcases hX : headerValue req.xBridgeSecret with _ | s
        · exact absurd hb (by simp [isAuthorized, hA, ht, hX])
        · have hs : s = secret := by simpa [isAuthorized, hA, ht, hX] using hb
          refine Or.inr ⟨?_, by rw [hs]⟩
          intro h' hh'
          obtain rfl : h = h' := Option.some_inj.mp hh'
          exact hempty
      · rintro (⟨h', hh', hne', hsec⟩ | ⟨hall, hxb⟩)
        · obtain rfl : h = h' := Option.some_inj.mp hh'
          exact absurd hempty hne'
        · simp [isAuthorized, hA, ht, hxb]

/-- C8: the webhook responds 401 exactly when the request is a POST on the
configured path that fails the precedence-aware secret check: a present
`Authorization` header yielding a non-empty token is decisive (it must equal
the secret, and then `X-Bridge-Secret` is ignored), and only otherwise an
`X-Bridge-Secret` header equal to the secret authorizes the request; the
request proceeds to body parsing exactly when that check succeeds. -/
theorem handleRequestAuthPhase_unauthorized_iff (req : WebhookRequest)
    (path secret : String) :
    (handleRequestAuthPhase req path secret = WebhookOutcome.unauthorized ↔
      (req.url = path ∧ req.method = "POST" ∧ ¬ webhookSecretAccepted req secret)) ∧
    (handleRequestAuthPhase req path secret = WebhookOutcome.accepted ↔
      (req.url = path ∧ req.method = "POST" ∧ webhookSecretAccepted req secret)) := by
  unfold handleRequestAuthPhase
  by_cases hu : req.url = path
  · rw [if_neg (not_not_intro hu)]
    by_cases hm : req.method = "POST"
    · rw [if_neg (not_not_intro hm)]
      by_cases ha : isAuthorized req secret = true
      · rw [if_neg (not_not_intro ha)]
        have hacc := (isAuthorized_iff req secret).mp ha
        constructor <;> simp [hu, hm, hacc]
      · rw [if_pos ha]
        have hnacc : ¬ webhookSecretAccepted req secret :=
          fun hw => ha ((isAuthorized_iff req secret).mpr hw)
        constructor <;> simp [hu, hm, hnacc]
    · rw [if_pos hm]
      constructor <;> simp [hm]
  · rw [if_pos hu]
    constructor <;> simp [hu]

/-- C8 (witness): a correct `Authorization: Bearer` request on the configured
path proceeds to body parsing. -/
theorem handleRequestAuthPhase_unauthorized_iff_witness :
    handleRequestAuthPhase ⟨"/hook", "POST", some "Bearer s3cret", none⟩ "/hook" "s3cret" =
      WebhookOutcome.accepted :=
  (handleRequestAuthPhase_unauthorized_iff
      ⟨"/hook", "POST", some "Bearer s3cret", none⟩ "/hook" "s3cret").2.mpr
    ⟨rfl, rfl, Or.inl ⟨"Bearer s3cret", by decide, by decide, by decide⟩⟩

end Bridge
